import Mathlib

/-!
Verification of the cursor-pagination core of `mongoose-cursor-pagination`
(`src/deep-merge.ts`, main module) against its natural-language specification.

The embedding has two layers.

The core layer models the pagination algorithm (`_getQuery`,
`getFiltersFromCursor`, `paginate`) over an abstract document store: a
document is a primary key (`Nat`, order-isomorphic to MongoDB ObjectIds
compared bytewise) together with one secondary sort value drawn from an
arbitrary linear order `V`.  The external store collaborator (`Model.find`,
`Model.countDocuments`) is modelled by sorting/filtering a finite list of
documents.  Cursor tokens are represented by their decode result: a supplied
token is `some d` where `d : Option CoreCursor` is what `decodeCursor`
returns for it (`none` = the token fails to decode).

The codec layer models `isObjectId`, `MongoIdSchema`, `encodeCursor` and
`decodeCursor` concretely over strings, bytes, base64 and JSON.
-/

set_option maxHeartbeats 1000000

namespace Pagination

/-- Comparison operator key used in the generated Mongo filters: `$gt` or `$lt`. -/
inductive Op where
  | gt
  | lt
deriving DecidableEq, Repr

/-- The requested sort order, `asc` or `desc` (source `SortOrderEnum`). -/
inductive SortOrderType where
  | asc
  | desc
deriving DecidableEq, Repr

/-- Which field the request sorts by: the primary key `_id` itself, or the
single secondary sort field (source compares `pagination.sortBy !== '_id'`). -/
inductive SortBy where
  | byId
  | bySecondary
deriving DecidableEq, Repr

/-- A stored document: primary key `id` plus the value `sv` of the secondary
sort field.  `V` is the native comparable type of that field. -/
structure Doc (V : Type) where
  id : Nat
  sv : V
deriving DecidableEq, Repr

/-- A decoded cursor at the core level: the boundary document's primary key
and, when sorting by a secondary field, that field's value serialized as text
(source type `DecodedCursor`, with the id abstracted to the key order). -/
structure CoreCursor where
  id : Nat
  v : Option String
deriving DecidableEq, Repr

/-- The filter shapes the module builds (a fragment of Mongo's filter
language; `$or`/`$and` always receive exactly two members in the source).
`basePred` is an opaque caller-supplied base filter.  The field comparisons
`cmpSv`/`eqSvCmpId` address the secondary sort field; the embedding types
that field as `V`, which covers every filter the module itself generates. -/
inductive MFilter (V : Type) where
  | empty : MFilter V
  | cmpId : Op → Nat → MFilter V
  | cmpSv : Op → V → MFilter V
  | eqSvCmpId : V → Op → Nat → MFilter V
  | orTwo : MFilter V → MFilter V → MFilter V
  | andTwo : MFilter V → MFilter V → MFilter V
  | basePred : (Doc V → Bool) → MFilter V

/-- Mongo semantics of a single comparison operator. -/
def evalOp {α : Type} [LinearOrder α] (op : Op) (x bound : α) : Bool :=
  match op with
  | .gt => bound < x
  | .lt => x < bound

/-- Whether a document matches a filter. -/
def evalF {V : Type} [LinearOrder V] : MFilter V → Doc V → Bool
  | .empty, _ => true
  | .cmpId op b, d => evalOp op d.id b
  | .cmpSv op b, d => evalOp op d.sv b
  | .eqSvCmpId v op b, d => decide (d.sv = v) && evalOp op d.id b
  | .orTwo f g, d => evalF f d || evalF g d
  | .andTwo f g, d => evalF f d && evalF g d
  | .basePred p, d => p d

/-- The sort directive built by `getFiltersFromCursor`: either `{_id: dir}` or
the compound `{sortField: dir, _id: dir}` (`dir` is `1` or `-1`). -/
inductive SortSpec where
  | idOnly : Int → SortSpec
  | svId : Int → SortSpec
deriving DecidableEq, Repr

/-- Mongo semantics of a sort directive, as a non-strict total order on
documents: `{_id: dir}` orders by key, the compound directive orders
lexicographically by sort value and then key, both in direction `dir`. -/
def specLe {V : Type} [LinearOrder V] (s : SortSpec) (a b : Doc V) : Bool :=
  match s with
  | .idOnly dir =>
      if dir = 1 then decide (a.id ≤ b.id) else decide (b.id ≤ a.id)
  | .svId dir =>
      if dir = 1 then decide (a.sv < b.sv) || (decide (a.sv = b.sv) && decide (a.id ≤ b.id))
      else decide (b.sv < a.sv) || (decide (a.sv = b.sv) && decide (b.id ≤ a.id))

/-- The sort relation as a `Prop`-valued relation, for `List.insertionSort`. -/
def SpecRel {V : Type} [LinearOrder V] (s : SortSpec) : Doc V → Doc V → Prop :=
  fun a b => specLe s a b = true

instance specRelDecidable {V : Type} [LinearOrder V] (s : SortSpec) :
    DecidableRel (@SpecRel V _ s) :=
  fun a b => instDecidableEqBool (specLe s a b) true

/-- The store collaborator's `find(filter, projection, {sort, limit})`:
matching documents in the requested order, truncated to `limit`. -/
def findDocs {V : Type} [LinearOrder V] (store : List (Doc V)) (filter : MFilter V)
    (sort : SortSpec) (limit : Nat) : List (Doc V) :=
  (List.insertionSort (SpecRel sort) (store.filter (evalF filter))).take limit

/-- The store collaborator's `countDocuments(filter)`. -/
def countDocuments {V : Type} [LinearOrder V] (store : List (Doc V))
    (filter : MFilter V) : Nat :=
  (store.filter (evalF filter)).length

/-- Source interface `QueryOrderResult`: the `(sort direction, operator)`
pairs for the current fetch and the two boundary probes. -/
structure QueryOrderResult where
  current : Int × Op
  next : Int × Op
  prev : Int × Op
deriving DecidableEq, Repr

/-- The validated pagination request (source `PaginationFields`).  A supplied
(truthy) cursor token is `some d` with `d` its decode result; `none` means no
token was supplied. -/
structure PaginationFields where
  nextCursor : Option (Option CoreCursor)
  prevCursor : Option (Option CoreCursor)
  order : SortOrderType
  limit : Nat
  sortBy : SortBy
deriving DecidableEq, Repr

/-- Result of `_getQuery`. -/
structure QueryDirective (V : Type) where
  filter : MFilter V
  cursor : Option CoreCursor
  sort : SortSpec
  order : QueryOrderResult
  reverse : Bool
  limit : Nat

/-- Source `getFiltersFromCursor`: builds the filter and sort directive from a
decoded cursor, a `(direction, operator)` pair, the sort field and the
optional caller base filter.  The caller-absent `parse` case corresponds to
instantiating `V := String` with `parse` the identity. -/
def getFiltersFromCursor {V : Type} (cursor : Option CoreCursor) (order : Int × Op)
    (sortBy : SortBy) (parse : String → V) (baseFilters : Option (Doc V → Bool)) :
    MFilter V × SortSpec :=
  let sortRules : SortSpec :=
    match sortBy with
    | .byId => .idOnly order.1
    | .bySecondary => .svId order.1
  let withBase : MFilter V → MFilter V := fun f =>
    match baseFilters with
    | some p => .andTwo f (.basePred p)
    | none => f
  match cursor with
  | none => (withBase .empty, sortRules)
  | some c =>
    match c.v with
    | some vs =>
      let parsedSortValue := parse vs
      (withBase (.orTwo (.cmpSv order.2 parsedSortValue)
                        (.eqSvCmpId parsedSortValue order.2 c.id)),
       sortRules)
    | none => (withBase (.cmpId order.2 c.id), sortRules)

/-- Source `_getQuery`: resolves the direction triple, the reverse flag and
the current fetch's filter/sort from the request. -/
def _getQuery {V : Type} (query : PaginationFields) (parse : String → V)
    (baseFilters : Option (Doc V → Bool)) : QueryDirective V :=
  let order0 : QueryOrderResult :=
    { current := match query.order with | .desc => (-1, Op.gt) | .asc => (1, Op.lt)
      next := match query.order with | .desc => (1, Op.lt) | .asc => (-1, Op.gt)
      prev := match query.order with | .desc => (-1, Op.gt) | .asc => (1, Op.lt) }
  match query.prevCursor with
  | some tok =>
    let order1 : QueryOrderResult :=
      { order0 with current := match query.order with | .desc => (1, Op.gt) | .asc => (-1, Op.lt) }
    let fs := getFiltersFromCursor tok order1.current query.sortBy parse baseFilters
    { filter := fs.1, cursor := tok, sort := fs.2, order := order1,
      reverse := true, limit := query.limit }
  | none =>
    match query.nextCursor with
    | some tok =>
      let order1 : QueryOrderResult :=
        { order0 with current := match query.order with | .desc => (-1, Op.lt) | .asc => (1, Op.gt) }
      let fs := getFiltersFromCursor tok order1.current query.sortBy parse baseFilters
      { filter := fs.1, cursor := tok, sort := fs.2, order := order1,
        reverse := false, limit := query.limit }
    | none =>
      let fs := getFiltersFromCursor none order0.current query.sortBy parse baseFilters
      { filter := fs.1, cursor := none, sort := fs.2, order := order0,
        reverse := false, limit := query.limit }

/-- Result shape of the pagination query (source `Paginated`), with cursors at
the decoded level. -/
structure Paginated (V : Type) where
  data : List (Doc V)
  totalCount : Nat
  nextCursor : Option CoreCursor
  prevCursor : Option CoreCursor
deriving DecidableEq, Repr

/-- Source `paginate`: one fetch, up to two boundary probes, result assembly.
`stringifySortValue` abstracts the source's serializer over the field type
`V` (documents are assumed to carry a present, serializable sort value). -/
def paginate {V : Type} [LinearOrder V] (store : List (Doc V))
    (pagination : PaginationFields) (parseSortValue : String → V)
    (stringifySortValue : V → String) (filters : Option (Doc V → Bool)) :
    Paginated V :=
  let query := _getQuery pagination parseSortValue filters
  let docs0 := findDocs store query.filter query.sort query.limit
  let docs := if query.reverse then docs0.reverse else docs0
  match docs.getLast?, docs.head? with
  | some lastD, some firstD =>
    let nextCursor0 : Option CoreCursor :=
      if docs.length = pagination.limit then
        some { id := lastD.id
               v := match pagination.sortBy with
                    | .bySecondary => some (stringifySortValue lastD.sv)
                    | .byId => none }
      else none
    let nextStep : Nat × Option CoreCursor :=
      match nextCursor0 with
      | some nc =>
        let nextFilter :=
          (getFiltersFromCursor (some nc) query.order.next pagination.sortBy
            parseSortValue filters).1
        let nextCount := countDocuments store nextFilter
        (nextCount, if nextCount = 0 then none else some nc)
      | none => (0, none)
    let prevCursor0 : CoreCursor :=
      { id := firstD.id
        v := match pagination.sortBy with
             | .bySecondary => some (stringifySortValue firstD.sv)
             | .byId => none }
    let prevFilter :=
      (getFiltersFromCursor (some prevCursor0) query.order.prev pagination.sortBy
        parseSortValue filters).1
    let prevCount := countDocuments store prevFilter
    { data := docs
      totalCount := docs.length + nextStep.1 + prevCount
      nextCursor := nextStep.2
      prevCursor := if prevCount = 0 then none else some prevCursor0 }
  | _, _ =>
    { data := docs, totalCount := docs.length, nextCursor := none, prevCursor := none }

/-! Spec-side definitions for the Direction Resolver claims (C1, C2): the
traversal mode and the six-row table of section 4.2 of the spec, with
descending = `-1`, ascending = `1`, the operator `<` = `Op.lt`, `>` = `Op.gt`. -/

/-- Traversal mode of a request, per the spec: backward when a `prevCursor`
token is supplied, else forward when a `nextCursor` token is supplied, else
initial. -/
inductive TraversalMode where
  | initial
  | forward
  | backward
deriving DecidableEq, Repr

/-- The traversal mode a request resolves to. -/
def reqMode (q : PaginationFields) : TraversalMode :=
  match q.prevCursor with
  | some _ => .backward
  | none =>
    match q.nextCursor with
    | some _ => .forward
    | none => .initial

/-- The spec's six-row table for the current fetch's (sort direction,
comparison operator) pair. -/
def specTableCurrent (o : SortOrderType) (m : TraversalMode) : Int × Op :=
  match o, m with
  | .desc, .initial => (-1, .lt)
  | .desc, .forward => (-1, .lt)
  | .desc, .backward => (1, .gt)
  | .asc, .initial => (1, .gt)
  | .asc, .forward => (1, .gt)
  | .asc, .backward => (-1, .lt)

/-- The spec's table for the reverse flag. -/
def specTableReverse (m : TraversalMode) : Bool :=
  match m with
  | .backward => true
  | _ => false

/-- A fixed initial-mode request with order `desc`, used for concrete
refutations. -/
def reqInit : PaginationFields :=
  { nextCursor := none, prevCursor := none, order := .desc, limit := 10, sortBy := .byId }

/-- Claim C1 (corrected), counterexample: on the initial-mode `desc` request
the code's current pair is `(descending, >)`, not the `(descending, <)` of
the spec's table row (desc, initial). -/
theorem c1_counterexample :
    (_getQuery reqInit (fun _ => (0 : Nat)) none).order.current = ((-1 : Int), Op.gt) ∧
    specTableCurrent reqInit.order (reqMode reqInit) = ((-1 : Int), Op.lt) ∧
    (_getQuery reqInit (fun _ => (0 : Nat)) none).order.current ≠
      specTableCurrent reqInit.order (reqMode reqInit) := by
  refine ⟨rfl, rfl, ?_⟩
  decide

/-- Claim C1 (amended): mode precedence is as claimed (`prevCursor` wins and
`nextCursor` is then ignored entirely, including its decoded value); the
reverse flag matches the spec table in all six rows; the current pair matches
the table in forward and backward modes, but in initial mode the code leaves
the operator at `>` for `desc` and `<` for `asc` (the opposite of the table),
an operator that is never applied because no cursor filter is built. -/
theorem c1_amended {V : Type} (req : PaginationFields) (parse : String → V)
    (base : Option (Doc V → Bool)) :
    (_getQuery req parse base).reverse = specTableReverse (reqMode req) ∧
    (_getQuery req parse base).cursor =
      (match req.prevCursor with
       | some tok => tok
       | none =>
         match req.nextCursor with
         | some tok => tok
         | none => none) ∧
    (_getQuery req parse base).order.current =
      (match reqMode req with
       | .forward => specTableCurrent req.order .forward
       | .backward => specTableCurrent req.order .backward
       | .initial => match req.order with | .desc => (-1, Op.gt) | .asc => (1, Op.lt)) := by
  rcases req with ⟨nc, pc, o, lim, sb⟩
  cases pc <;> cases nc <;> cases o <;>
    simp [_getQuery, reqMode, specTableCurrent, specTableReverse]

/-- Claim C2 (corrected), counterexample: for `desc` the code's next-probe
pair is `(ascending, <)`, not the `(descending, <)` the claim states. -/
theorem c2_counterexample :
    (_getQuery reqInit (fun _ => (0 : Nat)) none).order.next = ((1 : Int), Op.lt) ∧
    (_getQuery reqInit (fun _ => (0 : Nat)) none).order.next ≠ ((-1 : Int), Op.lt) := by
  refine ⟨rfl, ?_⟩
  decide

/-- Claim C2 (amended): the next-probe and prev-probe pairs are fixed
functions of `order` alone (no dependence on the cursors, i.e. on traversal
mode), with the operators as claimed but the sort directions opposite to the
claim: for `desc`, next = (ascending, <) and prev = (descending, >); for
`asc`, next = (descending, >) and prev = (ascending, <).  Only the operator
component is ever used by the probes. -/
theorem c2_amended {V : Type} (req : PaginationFields) (parse : String → V)
    (base : Option (Doc V → Bool)) :
    (_getQuery req parse base).order.next =
      (match req.order with | .desc => ((1 : Int), Op.lt) | .asc => ((-1 : Int), Op.gt)) ∧
    (_getQuery req parse base).order.prev =
      (match req.order with | .desc => ((-1 : Int), Op.gt) | .asc => ((1 : Int), Op.lt)) := by
  rcases req with ⟨nc, pc, o, lim, sb⟩
  cases pc <;> cases nc <;> cases o <;> simp [_getQuery]

/-- Evaluation of the optional caller base filter on a document. -/
def baseEval {V : Type} (base : Option (Doc V → Bool)) (d : Doc V) : Bool :=
  match base with
  | some p => p d
  | none => true

/-- Claim C6 (confirmed): the filter builder's output, compared by what it
matches.  With no cursor the filter behaves exactly as the base filter (or
matches everything), and the sort is `{sortField: direction}` with the
primary key added as tiebreaker exactly when the sort field differs from the
primary key.  With a cursor whose `v` is absent the filter is `primaryKey
operator cursor.id` ANDed with the base filter.  With a cursor whose `v` is
present (secondary sort field) the filter is `(sortField operator
parsedValue) OR (sortField == parsedValue AND primaryKey operator
cursor.id)`, ANDed with the base filter, under the compound sort
`{sortField: direction, primaryKey: direction}`. -/
theorem c6_filter_builder {V : Type} [LinearOrder V] (order : Int × Op) (sb : SortBy)
    (parse : String → V) (base : Option (Doc V → Bool)) :
    (∀ cursor, (getFiltersFromCursor cursor order sb parse base).2 =
      (match sb with | .byId => .idOnly order.1 | .bySecondary => .svId order.1)) ∧
    (∀ d, evalF (getFiltersFromCursor none order sb parse base).1 d = baseEval base d) ∧
    (∀ i d, evalF (getFiltersFromCursor (some ⟨i, none⟩) order sb parse base).1 d =
      (evalOp order.2 d.id i && baseEval base d)) ∧
    (∀ i s d, sb = .bySecondary →
      evalF (getFiltersFromCursor (some ⟨i, some s⟩) order sb parse base).1 d =
        ((evalOp order.2 d.sv (parse s) ||
          (decide (d.sv = parse s) && evalOp order.2 d.id i)) && baseEval base d)) := by
  refine ⟨?_, ?_, ?_, ?_⟩
  · intro cursor
    cases cursor with
    | none => cases sb <;> cases base <;> rfl
    | some c => cases hv : c.v <;> cases sb <;> cases base <;> simp [getFiltersFromCursor, hv]
  · intro d
    cases base <;> simp [getFiltersFromCursor, evalF, baseEval]
  · intro i d
    cases base <;> simp [getFiltersFromCursor, evalF, baseEval]
  · intro i s d _
    cases base <;> simp [getFiltersFromCursor, evalF, baseEval]

/-- Witness for C6 at concrete inputs (discharging the `sb = bySecondary`
hypothesis of the last conjunct). -/
theorem c6_filter_builder_witness :
    evalF (getFiltersFromCursor (some ⟨5, some "7"⟩) ((-1 : Int), Op.gt)
        .bySecondary (fun s => s.toNat?.getD 0) (some (fun d => decide (d.id ≠ 3)))).1
      ⟨4, 7⟩ =
      ((evalOp Op.gt (7 : Nat) (((fun s : String => s.toNat?.getD 0) "7")) ||
        (decide ((7 : Nat) = (fun s : String => s.toNat?.getD 0) "7") &&
          evalOp Op.gt (4 : Nat) 5)) && baseEval (some (fun d => decide (d.id ≠ 3))) ⟨4, 7⟩) :=
  (c6_filter_builder ((-1 : Int), Op.gt) .bySecondary (fun s => s.toNat?.getD 0)
    (some (fun d => decide (d.id ≠ 3)))).2.2.2 5 "7" ⟨4, 7⟩ rfl

/-! Order-theoretic facts about the sort directives, used to characterize the
store collaborator's output. -/

/-- Non-strict lexicographic order on (sort value, key) pairs. -/
def pairLe {α : Type} [LinearOrder α] (p q : α × Nat) : Prop :=
  p.1 < q.1 ∨ (p.1 = q.1 ∧ p.2 ≤ q.2)

/-- Strict lexicographic order on (sort value, key) pairs. -/
def pairLt {α : Type} [LinearOrder α] (p q : α × Nat) : Prop :=
  p.1 < q.1 ∨ (p.1 = q.1 ∧ p.2 < q.2)

theorem pairLe_total {α : Type} [LinearOrder α] (p q : α × Nat) :
    pairLe p q ∨ pairLe q p := by
  rcases lt_trichotomy p.1 q.1 with h | h | h
  · exact Or.inl (Or.inl h)
  · rcases Nat.le_total p.2 q.2 with h2 | h2
    · exact Or.inl (Or.inr ⟨h, h2⟩)
    · exact Or.inr (Or.inr ⟨h.symm, h2⟩)
  · exact Or.inr (Or.inl h)

theorem pairLe_trans {α : Type} [LinearOrder α] {p q r : α × Nat}
    (h1 : pairLe p q) (h2 : pairLe q r) : pairLe p r := by
  rcases h1 with h1 | ⟨h1, h1'⟩ <;> rcases h2 with h2 | ⟨h2, h2'⟩
  · exact Or.inl (lt_trans h1 h2)
  · exact Or.inl (h2 ▸ h1)
  · exact Or.inl (h1 ▸ h2)
  · exact Or.inr ⟨h1.trans h2, le_trans h1' h2'⟩

theorem pairLe_antisymm {α : Type} [LinearOrder α] {p q : α × Nat}
    (h1 : pairLe p q) (h2 : pairLe q p) : p = q := by
  rcases h1 with h1 | ⟨h1, h1'⟩ <;> rcases h2 with h2 | ⟨h2, h2'⟩
  · exact absurd (lt_trans h1 h2) (lt_irrefl _)
  · exact absurd (h2 ▸ h1) (lt_irrefl _)
  · exact absurd (h1 ▸ h2) (lt_irrefl _)
  · exact Prod.ext h1 (le_antisymm h1' h2')

theorem pairLt_iff_not_le {α : Type} [LinearOrder α] {p q : α × Nat} :
    pairLt p q ↔ ¬ pairLe q p := by
  constructor
  · rintro (h | ⟨h, h'⟩) (h2 | ⟨h2, h2'⟩)
    · exact absurd (lt_trans h h2) (lt_irrefl _)
    · exact absurd (h2 ▸ h) (lt_irrefl _)
    · exact absurd (h ▸ h2) (lt_irrefl _)
    · exact absurd h2' (by omega)
  · intro h
    rcases lt_trichotomy p.1 q.1 with h1 | h1 | h1
    · exact Or.inl h1
    · rcases Nat.lt_or_ge p.2 q.2 with h2 | h2
      · exact Or.inr ⟨h1, h2⟩
      · exact absurd (Or.inr ⟨h1.symm, h2⟩) h
    · exact absurd (Or.inl h1) h

/-- Strict version of a sort directive's order. -/
def specLt {V : Type} [LinearOrder V] (s : SortSpec) (a b : Doc V) : Bool :=
  match s with
  | .idOnly dir =>
      if dir = 1 then decide (a.id < b.id) else decide (b.id < a.id)
  | .svId dir =>
      if dir = 1 then decide (a.sv < b.sv) || (decide (a.sv = b.sv) && decide (a.id < b.id))
      else decide (b.sv < a.sv) || (decide (a.sv = b.sv) && decide (b.id < a.id))

theorem specLe_svId_iff {V : Type} [LinearOrder V] {dir : Int} {a b : Doc V} :
    specLe (.svId dir) a b = true ↔
      (if dir = 1 then pairLe (a.sv, a.id) (b.sv, b.id) else pairLe (b.sv, b.id) (a.sv, a.id)) := by
  by_cases h : dir = 1
  · simp [specLe, if_pos h, pairLe]
  · simp [specLe, if_neg h, pairLe, @eq_comm V a.sv b.sv]

theorem specLt_svId_iff {V : Type} [LinearOrder V] {dir : Int} {a b : Doc V} :
    specLt (.svId dir) a b = true ↔
      (if dir = 1 then pairLt (a.sv, a.id) (b.sv, b.id) else pairLt (b.sv, b.id) (a.sv, a.id)) := by
  by_cases h : dir = 1
  · simp [specLt, if_pos h, pairLt]
  · simp [specLt, if_neg h, pairLt, @eq_comm V a.sv b.sv]

theorem specLe_total {V : Type} [LinearOrder V] (s : SortSpec) (a b : Doc V) :
    specLe s a b = true ∨ specLe s b a = true := by
  cases s with
  | idOnly dir => by_cases h : dir = 1 <;> simp [specLe, h] <;> omega
  | svId dir =>
    rw [specLe_svId_iff, specLe_svId_iff]
    by_cases h : dir = 1 <;> simp [h]
    · exact pairLe_total _ _
    · exact (pairLe_total _ _).symm

theorem specLe_trans {V : Type} [LinearOrder V] {s : SortSpec} {a b c : Doc V}
    (h1 : specLe s a b = true) (h2 : specLe s b c = true) : specLe s a c = true := by
  cases s with
  | idOnly dir =>
    by_cases h : dir = 1 <;> simp_all [specLe, h] <;> omega
  | svId dir =>
    rw [specLe_svId_iff] at h1 h2 ⊢
    by_cases h : dir = 1 <;> simp_all [h]
    · exact pairLe_trans h1 h2
    · exact pairLe_trans h2 h1

theorem specLe_antisymm_id {V : Type} [LinearOrder V] {s : SortSpec} {a b : Doc V}
    (h1 : specLe s a b = true) (h2 : specLe s b a = true) : a.id = b.id := by
  cases s with
  | idOnly dir => by_cases h : dir = 1 <;> simp_all [specLe, h] <;> omega
  | svId dir =>
    rw [specLe_svId_iff] at h1 h2
    by_cases h : dir = 1 <;> simp_all [h]
    · exact congrArg Prod.snd (pairLe_antisymm h1 h2)
    · exact (congrArg Prod.snd (pairLe_antisymm h1 h2)).symm

theorem specLt_iff_not_le {V : Type} [LinearOrder V] {s : SortSpec} {a b : Doc V} :
    specLt s a b = true ↔ ¬ specLe s b a = true := by
  cases s with
  | idOnly dir => by_cases h : dir = 1 <;> simp [specLe, specLt, h]
  | svId dir =>
    rw [specLt_svId_iff, specLe_svId_iff]
    by_cases h : dir = 1 <;> simp [h] <;> exact pairLt_iff_not_le

theorem specLe_of_lt {V : Type} [LinearOrder V] {s : SortSpec} {a b : Doc V}
    (h : specLt s a b = true) : specLe s a b = true := by
  rcases specLe_total s a b with h2 | h2
  · exact h2
  · exact absurd h2 (specLt_iff_not_le.mp h)

theorem specLt_irrefl {V : Type} [LinearOrder V] {s : SortSpec} {a : Doc V} :
    ¬ specLt s a a = true := by
  intro h
  rcases specLe_total s a a with h2 | h2 <;> exact specLt_iff_not_le.mp h h2

theorem specLt_of_le_of_id_ne {V : Type} [LinearOrder V] {s : SortSpec} {a b : Doc V}
    (h : specLe s a b = true) (hne : a.id ≠ b.id) : specLt s a b = true := by
  rw [specLt_iff_not_le]
  intro h2
  exact hne (specLe_antisymm_id h h2)

theorem specLt_of_lt_of_le {V : Type} [LinearOrder V] {s : SortSpec} {a b c : Doc V}
    (h1 : specLt s a b = true) (h2 : specLe s b c = true) : specLt s a c = true := by
  rw [specLt_iff_not_le] at h1 ⊢
  intro h3
  exact h1 (specLe_trans h2 h3)

theorem specLt_of_le_of_lt {V : Type} [LinearOrder V] {s : SortSpec} {a b c : Doc V}
    (h1 : specLe s a b = true) (h2 : specLt s b c = true) : specLt s a c = true := by
  rw [specLt_iff_not_le] at h2 ⊢
  intro h3
  exact h2 (specLe_trans h3 h1)

instance specRelTotal {V : Type} [LinearOrder V] (s : SortSpec) :
    IsTotal (Doc V) (SpecRel s) :=
  ⟨fun a b => specLe_total s a b⟩

instance specRelTrans {V : Type} [LinearOrder V] (s : SortSpec) :
    IsTrans (Doc V) (SpecRel s) :=
  ⟨fun _ _ _ h1 h2 => specLe_trans h1 h2⟩

theorem pairLt_of_le_of_lt {α : Type} [LinearOrder α] {p q r : α × Nat}
    (h1 : pairLe p q) (h2 : pairLt q r) : pairLt p r := by
  rw [pairLt_iff_not_le] at h2 ⊢
  intro h3
  exact h2 (pairLe_trans h3 h1)

theorem pairLt_of_lt_of_le {α : Type} [LinearOrder α] {p q r : α × Nat}
    (h1 : pairLt p q) (h2 : pairLe q r) : pairLt p r := by
  rw [pairLt_iff_not_le] at h1 ⊢
  intro h3
  exact h1 (pairLe_trans h2 h3)

/-! Presentation order of a request and the cursor comparison predicates the
generated filters implement. -/

/-- Numeric sort direction of a requested order (descending is `-1`). -/
def dirOf : SortOrderType → Int
  | .asc => 1
  | .desc => -1

/-- The opposite order. -/
def flipOrder : SortOrderType → SortOrderType
  | .asc => .desc
  | .desc => .asc

/-- The caller-facing presentation sort directive of a request: the order the
records of a page are handed back in. -/
def presSpec (o : SortOrderType) (sb : SortBy) : SortSpec :=
  match sb with
  | .byId => .idOnly (dirOf o)
  | .bySecondary => .svId (dirOf o)

/-- The comparison operator selecting records strictly after a boundary in
presentation order (used by forward fetches and next probes). -/
def fwdOp : SortOrderType → Op
  | .desc => .lt
  | .asc => .gt

/-- The comparison operator selecting records strictly before a boundary in
presentation order (used by backward fetches and prev probes). -/
def bwdOp : SortOrderType → Op
  | .desc => .gt
  | .asc => .lt

/-- The cursor the module builds for a boundary document. -/
def cursorFor {V : Type} (sb : SortBy) (strV : V → String) (x : Doc V) : CoreCursor :=
  { id := x.id
    v := match sb with
         | .bySecondary => some (strV x.sv)
         | .byId => none }

/-- The per-document predicate implemented by the cursor part of a generated
filter (`getFiltersFromCursor` with cursor `c` and operator `op`). -/
def cmpCursor {V : Type} [LinearOrder V] (op : Op) (parse : String → V)
    (c : CoreCursor) (d : Doc V) : Bool :=
  match c.v with
  | some s => evalOp op d.sv (parse s) || (decide (d.sv = parse s) && evalOp op d.id c.id)
  | none => evalOp op d.id c.id

/-- A cursor of the shape the module itself produces for a given sort field:
`v` absent exactly when sorting by the primary key. -/
def wfCursor (sb : SortBy) (c : CoreCursor) : Prop :=
  match sb with
  | .byId => c.v = none
  | .bySecondary => c.v ≠ none

theorem evalF_cursor_filter {V : Type} [LinearOrder V] (c : CoreCursor) (p : Int × Op)
    (sb : SortBy) (parse : String → V) (base : Option (Doc V → Bool))
    (d : Doc V) :
    evalF (getFiltersFromCursor (some c) p sb parse base).1 d =
      (cmpCursor p.2 parse c d && baseEval base d) := by
  cases hv : c.v <;> cases base <;>
    simp [getFiltersFromCursor, cmpCursor, evalF, baseEval, hv]

theorem evalF_none_filter {V : Type} [LinearOrder V] (p : Int × Op)
    (sb : SortBy) (parse : String → V) (base : Option (Doc V → Bool)) (d : Doc V) :
    evalF (getFiltersFromCursor none p sb parse base).1 d = baseEval base d := by
  cases base <;> simp [getFiltersFromCursor, evalF, baseEval]

theorem getFilters_sort {V : Type} (cursor : Option CoreCursor) (p : Int × Op)
    (sb : SortBy) (parse : String → V) (base : Option (Doc V → Bool)) :
    (getFiltersFromCursor cursor p sb parse base).2 =
      (match sb with | .byId => .idOnly p.1 | .bySecondary => .svId p.1) := by
  cases cursor with
  | none => cases sb <;> cases base <;> rfl
  | some c => cases hv : c.v <;> cases sb <;> cases base <;> simp [getFiltersFromCursor, hv]

theorem cmpCursor_some_iff {V : Type} [LinearOrder V] {op : Op} {parse : String → V}
    {s : String} {cid : Nat} {d : Doc V} :
    cmpCursor op parse ⟨cid, some s⟩ d = true ↔
      (match op with
       | .lt => pairLt (d.sv, d.id) (parse s, cid)
       | .gt => pairLt (parse s, cid) (d.sv, d.id)) := by
  cases op <;> simp [cmpCursor, evalOp, pairLt, @eq_comm V d.sv (parse s)]

theorem cmpCursor_none_iff {V : Type} [LinearOrder V] {op : Op} {parse : String → V}
    {cid : Nat} {d : Doc V} :
    cmpCursor op parse ⟨cid, none⟩ d = true ↔
      (match op with
       | .lt => d.id < cid
       | .gt => cid < d.id) := by
  cases op <;> simp [cmpCursor, evalOp]

theorem specLe_idOnly_iff {V : Type} [LinearOrder V] {dir : Int} {a b : Doc V} :
    specLe (.idOnly dir) a b = true ↔ (if dir = 1 then a.id ≤ b.id else b.id ≤ a.id) := by
  by_cases h : dir = 1 <;> simp [specLe, h]

theorem specLt_idOnly_iff {V : Type} [LinearOrder V] {dir : Int} {a b : Doc V} :
    specLt (.idOnly dir) a b = true ↔ (if dir = 1 then a.id < b.id else b.id < a.id) := by
  by_cases h : dir = 1 <;> simp [specLt, h]

theorem cmpCursor_fwd_cursorFor {V : Type} [LinearOrder V] (o : SortOrderType)
    (sb : SortBy) (parse : String → V) (strV : V → String) (x d : Doc V)
    (hx : parse (strV x.sv) = x.sv) :
    cmpCursor (fwdOp o) parse (cursorFor sb strV x) d = specLt (presSpec o sb) x d := by
  cases sb <;> cases o <;>
    simp only [cursorFor, presSpec, dirOf, fwdOp] <;>
    rw [Bool.eq_iff_iff]
  · rw [cmpCursor_none_iff, specLt_idOnly_iff]
    simp
  · rw [cmpCursor_none_iff, specLt_idOnly_iff]
    simp
  · rw [cmpCursor_some_iff, specLt_svId_iff, hx]
    simp
  · rw [cmpCursor_some_iff, specLt_svId_iff, hx]
    simp

theorem cmpCursor_bwd_cursorFor {V : Type} [LinearOrder V] (o : SortOrderType)
    (sb : SortBy) (parse : String → V) (strV : V → String) (x d : Doc V)
    (hx : parse (strV x.sv) = x.sv) :
    cmpCursor (bwdOp o) parse (cursorFor sb strV x) d = specLt (presSpec o sb) d x := by
  cases sb <;> cases o <;>
    simp only [cursorFor, presSpec, dirOf, bwdOp] <;>
    rw [Bool.eq_iff_iff]
  · rw [cmpCursor_none_iff, specLt_idOnly_iff]
    simp
  · rw [cmpCursor_none_iff, specLt_idOnly_iff]
    simp
  · rw [cmpCursor_some_iff, specLt_svId_iff, hx]
    simp
  · rw [cmpCursor_some_iff, specLt_svId_iff, hx]
    simp

theorem cmpCursor_fwd_upClosed {V : Type} [LinearOrder V] {o : SortOrderType}
    {sb : SortBy} {parse : String → V} {c : CoreCursor} (hwf : wfCursor sb c)
    {d e : Doc V} (h1 : cmpCursor (fwdOp o) parse c d = true)
    (h2 : SpecRel (presSpec o sb) d e) : cmpCursor (fwdOp o) parse c e = true := by
  rw [SpecRel] at h2
  cases sb with
  | byId =>
    rcases c with ⟨cid, cv⟩
    cases hwf
    rw [cmpCursor_none_iff] at h1 ⊢
    cases o <;>
      simp only [presSpec, dirOf, fwdOp] at h1 h2 ⊢ <;>
      rw [specLe_idOnly_iff] at h2 <;>
      simp at h1 h2 ⊢ <;> omega
  | bySecondary =>
    rcases c with ⟨cid, cv⟩
    rcases cv with _ | s
    · exact absurd rfl hwf
    rw [cmpCursor_some_iff] at h1 ⊢
    cases o <;>
      simp only [presSpec, dirOf, fwdOp] at h1 h2 ⊢ <;>
      rw [specLe_svId_iff] at h2 <;>
      simp at h2
    · exact pairLt_of_lt_of_le h1 h2
    · exact pairLt_of_le_of_lt h2 h1

theorem cmpCursor_bwd_downClosed {V : Type} [LinearOrder V] {o : SortOrderType}
    {sb : SortBy} {parse : String → V} {c : CoreCursor} (hwf : wfCursor sb c)
    {d e : Doc V} (h1 : cmpCursor (bwdOp o) parse c e = true)
    (h2 : SpecRel (presSpec o sb) d e) : cmpCursor (bwdOp o) parse c d = true := by
  rw [SpecRel] at h2
  cases sb with
  | byId =>
    rcases c with ⟨cid, cv⟩
    cases hwf
    rw [cmpCursor_none_iff] at h1 ⊢
    cases o <;>
      simp only [presSpec, dirOf, bwdOp] at h1 h2 ⊢ <;>
      rw [specLe_idOnly_iff] at h2 <;>
      simp at h1 h2 ⊢ <;> omega
  | bySecondary =>
    rcases c with ⟨cid, cv⟩
    rcases cv with _ | s
    · exact absurd rfl hwf
    rw [cmpCursor_some_iff] at h1 ⊢
    cases o <;>
      simp only [presSpec, dirOf, bwdOp] at h1 h2 ⊢ <;>
      rw [specLe_svId_iff] at h2 <;>
      simp at h2
    · exact pairLt_of_le_of_lt h2 h1
    · exact pairLt_of_lt_of_le h1 h2

/-! Characterization of `paginate` in terms of its fetch and the two probe
counts. -/

theorem findDocs_subset {V : Type} [LinearOrder V] {store : List (Doc V)}
    {f : MFilter V} {s : SortSpec} {limit : Nat} :
    findDocs store f s limit ⊆ store := by
  intro d hd
  have h1 := List.take_subset _ _ hd
  rw [List.mem_insertionSort] at h1
  exact (List.mem_filter.mp h1).1

/-- The fetched (and, when reversed, re-reversed) document list of a request. -/
def pdocs {V : Type} [LinearOrder V] (store : List (Doc V)) (pg : PaginationFields)
    (parse : String → V) (base : Option (Doc V → Bool)) : List (Doc V) :=
  let query := _getQuery pg parse base
  let docs0 := findDocs store query.filter query.sort query.limit
  if query.reverse then docs0.reverse else docs0

/-- The post-fetch part of `paginate` (boundary probes and result assembly),
as a function of the fetched list. -/
def assemble {V : Type} [LinearOrder V] (store : List (Doc V)) (pg : PaginationFields)
    (parse : String → V) (strV : V → String) (base : Option (Doc V → Bool))
    (docs : List (Doc V)) : Paginated V :=
  match docs.getLast?, docs.head? with
  | some lastD, some firstD =>
    let nextCursor0 : Option CoreCursor :=
      if docs.length = pg.limit then
        some { id := lastD.id
               v := match pg.sortBy with
                    | .bySecondary => some (strV lastD.sv)
                    | .byId => none }
      else none
    let nextStep : Nat × Option CoreCursor :=
      match nextCursor0 with
      | some nc =>
        let nextFilter :=
          (getFiltersFromCursor (some nc) (_getQuery pg parse base).order.next pg.sortBy
            parse base).1
        let nextCount := countDocuments store nextFilter
        (nextCount, if nextCount = 0 then none else some nc)
      | none => (0, none)
    let prevCursor0 : CoreCursor :=
      { id := firstD.id
        v := match pg.sortBy with
             | .bySecondary => some (strV firstD.sv)
             | .byId => none }
    let prevFilter :=
      (getFiltersFromCursor (some prevCursor0) (_getQuery pg parse base).order.prev pg.sortBy
        parse base).1
    let prevCount := countDocuments store prevFilter
    { data := docs
      totalCount := docs.length + nextStep.1 + prevCount
      nextCursor := nextStep.2
      prevCursor := if prevCount = 0 then none else some prevCursor0 }
  | _, _ =>
    { data := docs, totalCount := docs.length, nextCursor := none, prevCursor := none }

theorem paginate_eq_assemble {V : Type} [LinearOrder V] (store : List (Doc V))
    (pg : PaginationFields) (parse : String → V) (strV : V → String)
    (base : Option (Doc V → Bool)) :
    paginate store pg parse strV base =
      assemble store pg parse strV base (pdocs store pg parse base) := rfl

/-- The count returned by the next-boundary probe on a fetched list (`0` when
the probe is skipped: empty fetch or a fetch shorter than the limit). -/
def nextProbeCount {V : Type} [LinearOrder V] (store : List (Doc V))
    (pg : PaginationFields) (parse : String → V) (strV : V → String)
    (base : Option (Doc V → Bool)) (docs : List (Doc V)) : Nat :=
  match docs.getLast? with
  | some lastD =>
    if docs.length = pg.limit then
      countDocuments store
        (getFiltersFromCursor (some (cursorFor pg.sortBy strV lastD))
          (_getQuery pg parse base).order.next pg.sortBy parse base).1
    else 0
  | none => 0

/-- The count returned by the prev-boundary probe on a fetched list (`0` when
the fetch is empty). -/
def prevProbeCount {V : Type} [LinearOrder V] (store : List (Doc V))
    (pg : PaginationFields) (parse : String → V) (strV : V → String)
    (base : Option (Doc V → Bool)) (docs : List (Doc V)) : Nat :=
  match docs.head? with
  | some firstD =>
    countDocuments store
      (getFiltersFromCursor (some (cursorFor pg.sortBy strV firstD))
        (_getQuery pg parse base).order.prev pg.sortBy parse base).1
  | none => 0

theorem assemble_char {V : Type} [LinearOrder V] (store : List (Doc V))
    (pg : PaginationFields) (parse : String → V) (strV : V → String)
    (base : Option (Doc V → Bool)) (docs : List (Doc V)) :
    (assemble store pg parse strV base docs).data = docs ∧
    (assemble store pg parse strV base docs).totalCount =
      docs.length + nextProbeCount store pg parse strV base docs +
        prevProbeCount store pg parse strV base docs ∧
    (assemble store pg parse strV base docs).nextCursor =
      (match docs.getLast? with
       | some lastD =>
         if docs.length = pg.limit then
           (if nextProbeCount store pg parse strV base docs = 0 then none
            else some (cursorFor pg.sortBy strV lastD))
         else none
       | none => none) ∧
    (assemble store pg parse strV base docs).prevCursor =
      (match docs.head? with
       | some firstD =>
         if prevProbeCount store pg parse strV base docs = 0 then none
         else some (cursorFor pg.sortBy strV firstD)
       | none => none) := by
  unfold assemble nextProbeCount prevProbeCount
  rcases hL : docs.getLast? with _ | lastD <;>
    rcases hH : docs.head? with _ | firstD <;>
    simp only [hL, hH]
  · simp
  · rw [List.getLast?_eq_none_iff] at hL
    rw [hL] at hH
    simp at hH
  · rw [List.head?_eq_none_iff] at hH
    rw [hH] at hL
    simp at hL
  · by_cases hlen : docs.length = pg.limit <;> simp [hlen, cursorFor]

theorem countDocuments_eq_zero {V : Type} [LinearOrder V] {store : List (Doc V)}
    {f : MFilter V} :
    countDocuments store f = 0 ↔ ∀ d ∈ store, ¬ evalF f d = true := by
  rw [countDocuments, List.length_eq_zero, List.filter_eq_nil_iff]

theorem pdocs_subset {V : Type} [LinearOrder V] {store : List (Doc V)}
    {pg : PaginationFields} {parse : String → V} {base : Option (Doc V → Bool)} :
    pdocs store pg parse base ⊆ store := by
  intro d hd
  simp only [pdocs] at hd
  split at hd
  · exact findDocs_subset (List.mem_reverse.mp hd)
  · exact findDocs_subset hd

theorem _getQuery_probe_ops {V : Type} (pg : PaginationFields) (parse : String → V)
    (base : Option (Doc V → Bool)) :
    (_getQuery pg parse base).order.next.2 = fwdOp pg.order ∧
    (_getQuery pg parse base).order.prev.2 = bwdOp pg.order := by
  rcases pg with ⟨nc, pc, o, lim, sb⟩
  cases pc <;> cases nc <;> cases o <;> exact ⟨rfl, rfl⟩

theorem ite_none_iff_zero {α : Type} (n : Nat) (x : α) :
    (if n = 0 then none else some x) = none ↔ n = 0 := by
  by_cases h : n = 0 <;> simp [h]

theorem filter_length_zero_iff {V : Type} [LinearOrder V] (store : List (Doc V))
    (p q : Doc V → Bool) :
    (store.filter (fun d => p d && q d)).length = 0 ↔
      ∀ d ∈ store, q d = true → ¬ p d = true := by
  rw [List.length_eq_zero, List.filter_eq_nil_iff]
  constructor
  · intro h d hd hq hp
    exact h d hd (by simp [hp, hq])
  · intro h d hd
    simp only [Bool.and_eq_true, not_and]
    intro hp hq
    exact absurd hp (h d hd hq)

/-- The next-boundary probe count, expressed as the number of matching records
strictly after the last fetched record in presentation order (when the page is
full; the probe is skipped otherwise). -/
theorem nextProbeCount_spec {V : Type} [LinearOrder V] (store : List (Doc V))
    (pg : PaginationFields) (parse : String → V) (strV : V → String)
    (base : Option (Doc V → Bool)) (docs : List (Doc V)) (lastD : Doc V)
    (hL : docs.getLast? = some lastD) (hx : parse (strV lastD.sv) = lastD.sv) :
    nextProbeCount store pg parse strV base docs =
      (if docs.length = pg.limit then
        (store.filter (fun d =>
          specLt (presSpec pg.order pg.sortBy) lastD d && baseEval base d)).length
       else 0) := by
  simp only [nextProbeCount, hL]
  by_cases hlen : docs.length = pg.limit
  · rw [if_pos hlen, if_pos hlen]
    simp only [countDocuments]
    congr 1
    apply List.filter_congr
    intro d _
    rw [evalF_cursor_filter, (_getQuery_probe_ops pg parse base).1,
      cmpCursor_fwd_cursorFor pg.order pg.sortBy parse strV lastD d hx]
  · rw [if_neg hlen, if_neg hlen]

/-- The prev-boundary probe count, expressed as the number of matching records
strictly before the first fetched record in presentation order. -/
theorem prevProbeCount_spec {V : Type} [LinearOrder V] (store : List (Doc V))
    (pg : PaginationFields) (parse : String → V) (strV : V → String)
    (base : Option (Doc V → Bool)) (docs : List (Doc V)) (firstD : Doc V)
    (hH : docs.head? = some firstD) (hx : parse (strV firstD.sv) = firstD.sv) :
    prevProbeCount store pg parse strV base docs =
      (store.filter (fun d =>
        specLt (presSpec pg.order pg.sortBy) d firstD && baseEval base d)).length := by
  simp only [prevProbeCount, hH, countDocuments]
  congr 1
  apply List.filter_congr
  intro d _
  rw [evalF_cursor_filter, (_getQuery_probe_ops pg parse base).2,
    cmpCursor_bwd_cursorFor pg.order pg.sortBy parse strV firstD d hx]

/-- Claim C5 (amended): with an empty fetch both cursors are null.  The prev
side is exactly as claimed: `prevCursor` is null iff no record matching the
filter lies strictly before the first fetched record in presentation order.
The next side needs an extra disjunct: `nextCursor` is null iff the fetch is
shorter than the requested limit or no matching record lies strictly after
the last fetched record (so a short page never produces a nextCursor, even
when later records do exist, as happens for backward fetches that hit the
start of the collection). -/
theorem c5_boundary {V : Type} [LinearOrder V] (store : List (Doc V))
    (pg : PaginationFields) (parse : String → V) (strV : V → String)
    (base : Option (Doc V → Bool))
    (hinv : ∀ d ∈ store, parse (strV d.sv) = d.sv) :
    ((paginate store pg parse strV base).data = [] →
      (paginate store pg parse strV base).nextCursor = none ∧
      (paginate store pg parse strV base).prevCursor = none) ∧
    (∀ firstD, (paginate store pg parse strV base).data.head? = some firstD →
      ((paginate store pg parse strV base).prevCursor = none ↔
        ∀ d ∈ store, baseEval base d = true →
          ¬ specLt (presSpec pg.order pg.sortBy) d firstD = true)) ∧
    (∀ lastD, (paginate store pg parse strV base).data.getLast? = some lastD →
      ((paginate store pg parse strV base).nextCursor = none ↔
        ((paginate store pg parse strV base).data.length ≠ pg.limit ∨
         ∀ d ∈ store, baseEval base d = true →
           ¬ specLt (presSpec pg.order pg.sortBy) lastD d = true))) := by
  obtain ⟨hdata, htot, hnext, hprev⟩ :=
    assemble_char store pg parse strV base (pdocs store pg parse base)
  rw [paginate_eq_assemble store pg parse strV base, hdata]
  refine ⟨?_, ?_, ?_⟩
  · intro hd
    rw [hnext, hprev, hd]
    simp
  · intro firstD hH
    have hfmem : firstD ∈ store := pdocs_subset (List.mem_of_mem_head? hH)
    rw [hprev]
    simp only [hH]
    rw [prevProbeCount_spec store pg parse strV base _ firstD hH (hinv firstD hfmem),
      ite_none_iff_zero]
    exact filter_length_zero_iff store _ _
  · intro lastD hL
    have hlmem : lastD ∈ store := pdocs_subset (List.mem_of_mem_getLast? hL)
    rw [hnext]
    simp only [hL]
    rw [nextProbeCount_spec store pg parse strV base _ lastD hL (hinv lastD hlmem)]
    by_cases hlen : (pdocs store pg parse base).length = pg.limit
    · rw [if_pos hlen, if_pos hlen, ite_none_iff_zero]
      simp only [hlen, ne_eq, not_true_eq_false, false_or]
      exact filter_length_zero_iff store _ _
    · rw [if_neg hlen]
      simp [hlen]

/-! Concrete instances used for refutations and witnesses. -/

/-- A concrete store with primary keys 1..15 (secondary value unused). -/
def store15 : List (Doc Nat) := (List.range 15).map (fun i => ⟨i + 1, 0⟩)

/-- A trivial sort-value parser for primary-key-sorted concrete runs. -/
def parseZero : String → Nat := fun _ => 0

/-- A trivial sort-value serializer for primary-key-sorted concrete runs. -/
def strZero : Nat → String := fun _ => ""

/-- A backward request whose prevCursor decodes to key 12: order desc,
limit 10, primary-key sort. -/
def reqBack12 : PaginationFields :=
  { nextCursor := none, prevCursor := some (some ⟨12, none⟩), order := .desc,
    limit := 10, sortBy := .byId }

/-- A request with a supplied prevCursor token that fails to decode. -/
def reqInvalidPrev : PaginationFields :=
  { nextCursor := none, prevCursor := some none, order := .desc, limit := 10,
    sortBy := .byId }

/-- Claim C5 (corrected), counterexample: on the backward request from key 12
over keys 1..15 the fetch returns only [15,14,13] (3 < limit records), so
`nextCursor` is null, yet record 1 matches the filter and satisfies the
next-direction predicate relative to the last fetched record 13. -/
theorem c5_counterexample :
    (paginate store15 reqBack12 parseZero strZero none).nextCursor = none ∧
    (paginate store15 reqBack12 parseZero strZero none).data.getLast? =
      some ⟨13, 0⟩ ∧
    (⟨1, 0⟩ : Doc Nat) ∈ store15 ∧
    @baseEval Nat none ⟨1, 0⟩ = true ∧
    specLt (presSpec reqBack12.order reqBack12.sortBy) ⟨13, 0⟩ ⟨1, 0⟩ = true := by
  refine ⟨by decide, by decide, by decide, by decide, by decide⟩

/-- Witness for C5 (amended) at a concrete instance: initial desc request over
keys 1..15, first fetched record is 15, and indeed no record lies before it. -/
theorem c5_boundary_witness :
    (paginate store15 reqInit parseZero strZero none).prevCursor = none ↔
      ∀ d ∈ store15, @baseEval Nat none d = true →
        ¬ specLt (presSpec reqInit.order reqInit.sortBy) d ⟨15, 0⟩ = true :=
  (c5_boundary store15 reqInit parseZero strZero none (by decide)).2.1 ⟨15, 0⟩ (by decide)

/-- Claim C3 (corrected), counterexample: on the backward request from key 12
over keys 1..15, totalCount is 3 while 15 records match the (empty) filter. -/
theorem c3_counterexample :
    (paginate store15 reqBack12 parseZero strZero none).totalCount = 3 ∧
    (store15.filter (@baseEval Nat none)).length = 15 ∧
    (paginate store15 reqBack12 parseZero strZero none).totalCount ≠
      (store15.filter (@baseEval Nat none)).length := by
  refine ⟨by decide, by decide, by decide⟩

/-- Claim C9 (corrected), counterexample: with 15 matching records, limit 10
and order desc, an invalid prevCursor yields the page [10..1] (the final page
in caller order), not the initial response's [15..6]. -/
theorem c9_counterexample :
    (paginate store15 reqInvalidPrev parseZero strZero none).data.head? =
      some ⟨10, 0⟩ ∧
    (paginate store15 reqInit parseZero strZero none).data.head? = some ⟨15, 0⟩ ∧
    (paginate store15 reqInvalidPrev parseZero strZero none).data ≠
      (paginate store15 reqInit parseZero strZero none).data := by
  refine ⟨by decide, by decide, by decide⟩

/-! Sorted-list machinery for the traversal and total-count claims. -/

theorem specLe_refl {V : Type} [LinearOrder V] (s : SortSpec) (a : Doc V) :
    specLe s a a = true := by
  cases s with
  | idOnly dir => by_cases h : dir = 1 <;> simp [specLe, h]
  | svId dir => by_cases h : dir = 1 <;> simp [specLe, h]

theorem nodupKey_eq {V : Type} {l : List (Doc V)} (hn : (l.map Doc.id).Nodup)
    {a b : Doc V} (ha : a ∈ l) (hb : b ∈ l) (hid : a.id = b.id) : a = b :=
  List.inj_on_of_nodup_map hn ha hb hid

theorem sorted_unique {V : Type} [LinearOrder V] (s : SortSpec) (l₁ : List (Doc V)) :
    ∀ (l₂ : List (Doc V)), List.Perm l₁ l₂ → l₁.Sorted (SpecRel s) → l₂.Sorted (SpecRel s) →
      (l₁.map Doc.id).Nodup → l₁ = l₂ := by
  induction l₁ with
  | nil =>
    intro l₂ hp _ _ _
    exact hp.symm.eq_nil.symm
  | cons a t ih =>
    intro l₂ hp h₁ h₂ hn
    cases l₂ with
    | nil => exact absurd hp.eq_nil (by simp)
    | cons b t₂ =>
      have hab : a = b := by
        by_contra hne
        have hb1 : b ∈ a :: t := hp.symm.subset (List.mem_cons_self b t₂)
        have ha2 : a ∈ b :: t₂ := hp.subset (List.mem_cons_self a t)
        have hbt : b ∈ t := by
          rcases List.mem_cons.mp hb1 with h | h
          · exact absurd h.symm hne
          · exact h
        have hat : a ∈ t₂ := by
          rcases List.mem_cons.mp ha2 with h | h
          · exact absurd h hne
          · exact h
        have hr1 : SpecRel s a b := (List.sorted_cons.mp h₁).1 b hbt
        have hr2 : SpecRel s b a := (List.sorted_cons.mp h₂).1 a hat
        exact hne (nodupKey_eq hn (List.mem_cons_self a t)
          (List.mem_cons.mpr (Or.inr hbt)) (specLe_antisymm_id hr1 hr2))
      subst hab
      have ht : t = t₂ :=
        ih t₂ hp.cons_inv (List.sorted_cons.mp h₁).2 (List.sorted_cons.mp h₂).2
          (by
            rw [List.map_cons] at hn
            exact (List.nodup_cons.mp hn).2)
      rw [ht]

theorem insertionSort_filter {V : Type} [LinearOrder V] (s : SortSpec)
    (M : List (Doc V)) (p : Doc V → Bool) (hn : (M.map Doc.id).Nodup) :
    (List.insertionSort (SpecRel s) M).filter p =
      List.insertionSort (SpecRel s) (M.filter p) := by
  have hperm : List.Perm ((List.insertionSort (SpecRel s) M).filter p)
      (List.insertionSort (SpecRel s) (M.filter p)) :=
    ((List.perm_insertionSort (SpecRel s) M).filter p).trans
      (List.perm_insertionSort (SpecRel s) (M.filter p)).symm
  have hsort1 : ((List.insertionSort (SpecRel s) M).filter p).Sorted (SpecRel s) :=
    List.Pairwise.filter p (List.sorted_insertionSort (SpecRel s) M)
  have hsort2 : (List.insertionSort (SpecRel s) (M.filter p)).Sorted (SpecRel s) :=
    List.sorted_insertionSort (SpecRel s) (M.filter p)
  have hnod : (((List.insertionSort (SpecRel s) M).filter p).map Doc.id).Nodup := by
    have h1 : ((List.insertionSort (SpecRel s) M).map Doc.id).Nodup :=
      (((List.perm_insertionSort (SpecRel s) M).map Doc.id).nodup_iff).mpr hn
    exact h1.sublist ((List.filter_sublist _).map Doc.id)
  exact sorted_unique s _ _ hperm hsort1 hsort2 hnod

theorem sorted_filter_upClosed {V : Type} [LinearOrder V] (s : SortSpec)
    (p : Doc V → Bool)
    (hup : ∀ d e, p d = true → SpecRel s d e → p e = true) :
    ∀ (L : List (Doc V)), L.Sorted (SpecRel s) →
      L.filter p = L.drop (L.length - (L.filter p).length) := by
  intro L
  induction L with
  | nil => intro _; simp
  | cons a l ih =>
    intro hs
    have hs' := List.sorted_cons.mp hs
    by_cases hpa : p a = true
    · have hall : ∀ b ∈ a :: l, p b = true := by
        intro b hb
        rcases List.mem_cons.mp hb with h | h
        · rw [h]; exact hpa
        · exact hup a b hpa (hs'.1 b h)
      rw [List.filter_eq_self.mpr hall]
      simp
    · rw [List.filter_cons_of_neg (by simpa using hpa)]
      have hlen : (l.filter p).length ≤ l.length := List.length_filter_le p l
      have harith : (a :: l).length - (l.filter p).length =
          (l.length - (l.filter p).length) + 1 := by
        simp only [List.length_cons]
        omega
      rw [harith, List.drop_succ_cons]
      exact ih hs'.2

theorem sorted_filter_downClosed {V : Type} [LinearOrder V] (s : SortSpec)
    (p : Doc V → Bool)
    (hdn : ∀ d e, p e = true → SpecRel s d e → p d = true) :
    ∀ (L : List (Doc V)), L.Sorted (SpecRel s) →
      L.filter p = L.take ((L.filter p).length) := by
  intro L
  induction L with
  | nil => intro _; simp
  | cons a l ih =>
    intro hs
    have hs' := List.sorted_cons.mp hs
    by_cases hpa : p a = true
    · rw [List.filter_cons_of_pos hpa]
      simp only [List.length_cons, List.take_succ_cons]
      exact congrArg (a :: ·) (ih hs'.2)
    · have hnone : ∀ b ∈ l, ¬ p b = true :=
        fun b hb hpb => hpa (hdn a b hpb (hs'.1 b hb))
      rw [List.filter_cons_of_neg (by simpa using hpa),
        List.filter_eq_nil_iff.mpr hnone]
      simp

theorem sorted_pairwise_key_ne {V : Type} [LinearOrder V] {L : List (Doc V)}
    (hn : (L.map Doc.id).Nodup) :
    ∀ (i j : Nat) (hi : i < L.length) (hj : j < L.length), i < j →
      (L[i]).id ≠ (L[j]).id := by
  have h1 : L.Pairwise (fun a b => a.id ≠ b.id) := List.pairwise_map.mp hn
  exact fun i j hi hj hij => (List.pairwise_iff_getElem.mp h1) i j hi hj hij

/-- On a sorted list with distinct keys, the records strictly after the one at
index `k` form exactly the suffix past `k`. -/
theorem sorted_filter_gt_index {V : Type} [LinearOrder V] (s : SortSpec)
    (L : List (Doc V)) (hs : L.Sorted (SpecRel s)) (hn : (L.map Doc.id).Nodup)
    (k : Nat) (hk : k < L.length) (x : Doc V) (hx : L[k] = x) :
    L.filter (fun d => specLt s x d) = L.drop (k + 1) := by
  have hrel := List.pairwise_iff_getElem.mp hs
  have hne := sorted_pairwise_key_ne hn
  conv_lhs => rw [← List.take_append_drop (k + 1) L]
  rw [List.filter_append]
  have h1 : (L.take (k + 1)).filter (fun d => specLt s x d) = [] := by
    rw [List.filter_eq_nil_iff]
    intro d hd
    obtain ⟨i, hi, hdi⟩ := List.getElem_of_mem hd
    have hi' : i < k + 1 := by
      have := List.length_take (k + 1) L
      omega
    have hil : i < L.length := by omega
    have hdL : d = L[i] := by
      rw [← hdi, List.getElem_take]
    have hle : SpecRel s d x := by
      rw [← hx]
      rcases Nat.lt_or_ge i k with h | h
      · rw [hdL]
        exact hrel i k hil hk h
      · have hik : i = k := by omega
        subst hik
        rw [hdL]
        exact specLe_refl s _
    intro hlt
    exact (specLt_iff_not_le.mp hlt) hle
  have h2 : (L.drop (k + 1)).filter (fun d => specLt s x d) = L.drop (k + 1) := by
    rw [List.filter_eq_self]
    intro d hd
    obtain ⟨j, hj, hdj⟩ := List.getElem_of_mem hd
    have hjl : k + 1 + j < L.length := by
      have := List.length_drop (k + 1) L
      omega
    have hdL : d = L[k + 1 + j] := by
      rw [← hdj, List.getElem_drop]
    have hle : SpecRel s x d := by
      rw [← hx, hdL]
      exact hrel k (k + 1 + j) hk hjl (by omega)
    have hne' : x.id ≠ d.id := by
      rw [← hx, hdL]
      exact hne k (k + 1 + j) hk hjl (by omega)
    exact specLt_of_le_of_id_ne hle hne'
  rw [h1, h2]
  exact List.nil_append _

/-- On a sorted list with distinct keys, the records strictly before the one
at index `k` form exactly the prefix up to `k`. -/
theorem sorted_filter_lt_index {V : Type} [LinearOrder V] (s : SortSpec)
    (L : List (Doc V)) (hs : L.Sorted (SpecRel s)) (hn : (L.map Doc.id).Nodup)
    (k : Nat) (hk : k < L.length) (x : Doc V) (hx : L[k] = x) :
    L.filter (fun d => specLt s d x) = L.take k := by
  have hrel := List.pairwise_iff_getElem.mp hs
  have hne := sorted_pairwise_key_ne hn
  conv_lhs => rw [← List.take_append_drop k L]
  rw [List.filter_append]
  have h1 : (L.take k).filter (fun d => specLt s d x) = L.take k := by
    rw [List.filter_eq_self]
    intro d hd
    obtain ⟨i, hi, hdi⟩ := List.getElem_of_mem hd
    have hi' : i < k := by
      have := List.length_take k L
      omega
    have hil : i < L.length := by omega
    have hdL : d = L[i] := by
      rw [← hdi, List.getElem_take]
    have hle : SpecRel s d x := by
      rw [← hx, hdL]
      exact hrel i k hil hk hi'
    have hne' : d.id ≠ x.id := by
      rw [← hx, hdL]
      exact hne i k hil hk hi'
    exact specLt_of_le_of_id_ne hle hne'
  have h2 : (L.drop k).filter (fun d => specLt s d x) = [] := by
    rw [List.filter_eq_nil_iff]
    intro d hd
    obtain ⟨j, hj, hdj⟩ := List.getElem_of_mem hd
    have hjl : k + j < L.length := by
      have := List.length_drop k L
      omega
    have hdL : d = L[k + j] := by
      rw [← hdj, List.getElem_drop]
    have hle : SpecRel s x d := by
      rw [← hx]
      rcases Nat.eq_zero_or_pos j with h | h
      · subst h
        rw [hdL]
        have hkj : k + 0 = k := by omega
        simp only [hkj]
        exact specLe_refl s _
      · rw [hdL]
        exact hrel k (k + j) hk hjl (by omega)
    intro hlt
    exact (specLt_iff_not_le.mp hlt) hle
  rw [h1, h2]
  exact List.append_nil _

/-! Forward traversal: request shapes and the per-step characterization. -/

/-- The records matching the caller's base filter. -/
def matching {V : Type} (store : List (Doc V)) (base : Option (Doc V → Bool)) :
    List (Doc V) :=
  store.filter (baseEval base)

/-- The matching records in the request's presentation order. -/
def sortedMatching {V : Type} [LinearOrder V] (store : List (Doc V))
    (base : Option (Doc V → Bool)) (o : SortOrderType) (sb : SortBy) : List (Doc V) :=
  List.insertionSort (SpecRel (presSpec o sb)) (matching store base)

/-- A forward request: an optional (valid) nextCursor, no prevCursor. -/
def fwdReq (o : SortOrderType) (sb : SortBy) (limit : Nat)
    (tok : Option CoreCursor) : PaginationFields :=
  { nextCursor := tok.map some, prevCursor := none, order := o, limit := limit,
    sortBy := sb }

/-- The per-document predicate a forward request's cursor filter implements
(everything, absent a cursor). -/
def tokPred {V : Type} [LinearOrder V] (o : SortOrderType) (parse : String → V)
    (tok : Option CoreCursor) : Doc V → Bool :=
  match tok with
  | none => fun _ => true
  | some c => cmpCursor (fwdOp o) parse c

/-- Well-formedness of an optional cursor for a sort field. -/
def wfTok (sb : SortBy) (tok : Option CoreCursor) : Prop :=
  match tok with
  | none => True
  | some c => wfCursor sb c

/-- The records a forward request still has to visit, in presentation order. -/
def remList {V : Type} [LinearOrder V] (store : List (Doc V))
    (base : Option (Doc V → Bool)) (o : SortOrderType) (sb : SortBy)
    (parse : String → V) (tok : Option CoreCursor) : List (Doc V) :=
  (sortedMatching store base o sb).filter (tokPred o parse tok)

theorem matching_nodup {V : Type} {store : List (Doc V)} {base : Option (Doc V → Bool)}
    (hn : (store.map Doc.id).Nodup) : ((matching store base).map Doc.id).Nodup :=
  hn.sublist ((List.filter_sublist store).map Doc.id)

theorem sortedMatching_sorted {V : Type} [LinearOrder V] (store : List (Doc V))
    (base : Option (Doc V → Bool)) (o : SortOrderType) (sb : SortBy) :
    (sortedMatching store base o sb).Sorted (SpecRel (presSpec o sb)) :=
  List.sorted_insertionSort (SpecRel (presSpec o sb)) (matching store base)

theorem sortedMatching_nodup {V : Type} [LinearOrder V] {store : List (Doc V)}
    {base : Option (Doc V → Bool)} {o : SortOrderType} {sb : SortBy}
    (hn : (store.map Doc.id).Nodup) :
    ((sortedMatching store base o sb).map Doc.id).Nodup :=
  (((List.perm_insertionSort (SpecRel (presSpec o sb)) (matching store base)).map
    Doc.id).nodup_iff).mpr (matching_nodup hn)

theorem sortedMatching_length {V : Type} [LinearOrder V] (store : List (Doc V))
    (base : Option (Doc V → Bool)) (o : SortOrderType) (sb : SortBy) :
    (sortedMatching store base o sb).length = (matching store base).length :=
  (List.perm_insertionSort (SpecRel (presSpec o sb)) (matching store base)).length_eq

theorem sortedMatching_subset {V : Type} [LinearOrder V] {store : List (Doc V)}
    {base : Option (Doc V → Bool)} {o : SortOrderType} {sb : SortBy} :
    sortedMatching store base o sb ⊆ store := by
  intro d hd
  rw [sortedMatching, List.mem_insertionSort] at hd
  exact (List.mem_filter.mp hd).1

theorem remList_subset {V : Type} [LinearOrder V] {store : List (Doc V)}
    {base : Option (Doc V → Bool)} {o : SortOrderType} {sb : SortBy}
    {parse : String → V} {tok : Option CoreCursor} :
    remList store base o sb parse tok ⊆ store := by
  intro d hd
  rw [remList] at hd
  exact sortedMatching_subset (List.mem_of_mem_filter hd)

theorem remList_sorted {V : Type} [LinearOrder V] (store : List (Doc V))
    (base : Option (Doc V → Bool)) (o : SortOrderType) (sb : SortBy)
    (parse : String → V) (tok : Option CoreCursor) :
    (remList store base o sb parse tok).Sorted (SpecRel (presSpec o sb)) :=
  List.Pairwise.filter _ (sortedMatching_sorted store base o sb)

theorem remList_length_le {V : Type} [LinearOrder V] (store : List (Doc V))
    (base : Option (Doc V → Bool)) (o : SortOrderType) (sb : SortBy)
    (parse : String → V) (tok : Option CoreCursor) :
    (remList store base o sb parse tok).length ≤ (sortedMatching store base o sb).length :=
  List.length_filter_le _ _

/-- The remaining records form a suffix of the sorted matching records. -/
theorem remList_suffix {V : Type} [LinearOrder V] (store : List (Doc V))
    (base : Option (Doc V → Bool)) (o : SortOrderType) (sb : SortBy)
    (parse : String → V) (tok : Option CoreCursor) (hwf : wfTok sb tok) :
    remList store base o sb parse tok =
      (sortedMatching store base o sb).drop
        ((sortedMatching store base o sb).length -
          (remList store base o sb parse tok).length) := by
  rw [remList]
  apply sorted_filter_upClosed (presSpec o sb) (tokPred o parse tok) ?_ _
    (sortedMatching_sorted store base o sb)
  intro d e hd hde
  cases tok with
  | none => rfl
  | some c => exact cmpCursor_fwd_upClosed hwf hd hde

theorem remList_getElem {V : Type} [LinearOrder V] (store : List (Doc V))
    (base : Option (Doc V → Bool)) (o : SortOrderType) (sb : SortBy)
    (parse : String → V) (tok : Option CoreCursor) (hwf : wfTok sb tok)
    (i : Nat) (hi : i < (remList store base o sb parse tok).length)
    (hgl : (sortedMatching store base o sb).length -
      (remList store base o sb parse tok).length + i <
        (sortedMatching store base o sb).length) :
    (remList store base o sb parse tok)[i] =
      (sortedMatching store base o sb)[(sortedMatching store base o sb).length -
        (remList store base o sb parse tok).length + i] := by
  have h := remList_suffix store base o sb parse tok hwf
  have hi2 : i < ((sortedMatching store base o sb).drop
      ((sortedMatching store base o sb).length -
        (remList store base o sb parse tok).length)).length := by
    rw [← h]
    exact hi
  calc (remList store base o sb parse tok)[i]
      = ((sortedMatching store base o sb).drop
          ((sortedMatching store base o sb).length -
            (remList store base o sb parse tok).length))[i] := by
        congr 1
    _ = (sortedMatching store base o sb)[(sortedMatching store base o sb).length -
          (remList store base o sb parse tok).length + i] := List.getElem_drop _

/-- Generic fact: last element of a nonempty truncated list. -/
theorem take_getLast_eq {α : Type} (L : List α) (n : Nat) (hn : 1 ≤ n) (hne : L ≠ [])
    (h : min n L.length - 1 < L.length) :
    (L.take n).getLast? = some (L[min n L.length - 1]) := by
  have hlen : (L.take n).length = min n L.length := List.length_take n L
  have hpos : 1 ≤ L.length := by
    cases L with
    | nil => exact absurd rfl hne
    | cons a l => simp
  rw [List.getLast?_eq_getElem? _, hlen, List.getElem?_take]
  have hlt : min n L.length - 1 < n := by omega
  rw [if_pos hlt, List.getElem?_eq_getElem h]

/-- Generic fact: head of a truncated list. -/
theorem take_head_eq {α : Type} (L : List α) (n : Nat) (hn : 1 ≤ n) :
    (L.take n).head? = L[0]? := by
  rw [List.head?_eq_getElem?, List.getElem?_take, if_pos (by omega)]

theorem fwdReq_query {V : Type} [LinearOrder V] (o : SortOrderType) (sb : SortBy)
    (limit : Nat) (tok : Option CoreCursor) (parse : String → V)
    (base : Option (Doc V → Bool)) :
    (_getQuery (fwdReq o sb limit tok) parse base).reverse = false ∧
    (_getQuery (fwdReq o sb limit tok) parse base).limit = limit ∧
    (_getQuery (fwdReq o sb limit tok) parse base).sort = presSpec o sb ∧
    (∀ d, evalF (_getQuery (fwdReq o sb limit tok) parse base).filter d =
      (tokPred o parse tok d && baseEval base d)) := by
  cases tok with
  | none =>
    refine ⟨rfl, rfl, ?_, ?_⟩
    · rw [show (_getQuery (fwdReq o sb limit none) parse base).sort =
        (getFiltersFromCursor none
          (match o with | .desc => ((-1 : Int), Op.gt) | .asc => ((1 : Int), Op.lt))
          sb parse base).2 from rfl, getFilters_sort]
      cases o <;> cases sb <;> rfl
    · intro d
      rw [show (_getQuery (fwdReq o sb limit none) parse base).filter =
        (getFiltersFromCursor none
          (match o with | .desc => ((-1 : Int), Op.gt) | .asc => ((1 : Int), Op.lt))
          sb parse base).1 from rfl, evalF_none_filter]
      simp [tokPred]
  | some c =>
    refine ⟨rfl, rfl, ?_, ?_⟩
    · rw [show (_getQuery (fwdReq o sb limit (some c)) parse base).sort =
        (getFiltersFromCursor (some c)
          (match o with | .desc => ((-1 : Int), Op.lt) | .asc => ((1 : Int), Op.gt))
          sb parse base).2 from rfl, getFilters_sort]
      cases o <;> cases sb <;> rfl
    · intro d
      rw [show (_getQuery (fwdReq o sb limit (some c)) parse base).filter =
        (getFiltersFromCursor (some c)
          (match o with | .desc => ((-1 : Int), Op.lt) | .asc => ((1 : Int), Op.gt))
          sb parse base).1 from rfl, evalF_cursor_filter]
      cases o <;> rfl

theorem fwdReq_pdocs {V : Type} [LinearOrder V] (store : List (Doc V))
    (o : SortOrderType) (sb : SortBy) (limit : Nat) (tok : Option CoreCursor)
    (parse : String → V) (base : Option (Doc V → Bool))
    (hn : (store.map Doc.id).Nodup) :
    pdocs store (fwdReq o sb limit tok) parse base =
      (remList store base o sb parse tok).take limit := by
  obtain ⟨hrev, hlim, hsort, hfil⟩ := fwdReq_query o sb limit tok parse base
  simp only [pdocs, hrev, Bool.false_eq_true, if_false]
  rw [findDocs, hsort, hlim]
  have hfeq : store.filter (evalF (_getQuery (fwdReq o sb limit tok) parse base).filter) =
      (matching store base).filter (tokPred o parse tok) := by
    rw [matching, List.filter_filter]
    exact List.filter_congr (fun d _ => hfil d)
  rw [hfeq, ← insertionSort_filter (presSpec o sb) (matching store base)
    (tokPred o parse tok) (matching_nodup hn)]
  rfl

theorem count_filter_pres {V : Type} [LinearOrder V] (store : List (Doc V))
    (base : Option (Doc V → Bool)) (o : SortOrderType) (sb : SortBy)
    (A : Doc V → Bool) :
    (store.filter (fun d => A d && baseEval base d)).length =
      ((sortedMatching store base o sb).filter A).length := by
  have h1 : store.filter (fun d => A d && baseEval base d) =
      (matching store base).filter A := by
    rw [matching, List.filter_filter]
  have h2 : List.Perm ((sortedMatching store base o sb).filter A)
      ((matching store base).filter A) :=
    (List.perm_insertionSort (SpecRel (presSpec o sb)) (matching store base)).filter A
  rw [h1]
  exact h2.length_eq.symm

theorem fwdReq_limit (o : SortOrderType) (sb : SortBy) (limit : Nat)
    (tok : Option CoreCursor) : (fwdReq o sb limit tok).limit = limit := rfl

theorem fwdReq_order (o : SortOrderType) (sb : SortBy) (limit : Nat)
    (tok : Option CoreCursor) : (fwdReq o sb limit tok).order = o := rfl

theorem fwdReq_sortBy (o : SortOrderType) (sb : SortBy) (limit : Nat)
    (tok : Option CoreCursor) : (fwdReq o sb limit tok).sortBy = sb := rfl

/-- One forward call of `paginate`: the data is the next page of the remaining
records, the nextCursor is produced exactly when more than a page remains (and
then points at the page's last record, with the remaining records advancing by
one page), and on a nonempty remainder the totalCount is exact. -/
theorem forward_step {V : Type} [LinearOrder V] (store : List (Doc V))
    (o : SortOrderType) (sb : SortBy) (limit : Nat) (parse : String → V)
    (strV : V → String) (base : Option (Doc V → Bool))
    (hn : (store.map Doc.id).Nodup)
    (hinv : ∀ d ∈ store, parse (strV d.sv) = d.sv) (hlim : 1 ≤ limit)
    (tok : Option CoreCursor) (hwf : wfTok sb tok) :
    (paginate store (fwdReq o sb limit tok) parse strV base).data =
      (remList store base o sb parse tok).take limit ∧
    ((remList store base o sb parse tok).length ≤ limit →
      (paginate store (fwdReq o sb limit tok) parse strV base).nextCursor = none) ∧
    (∀ hgt : limit < (remList store base o sb parse tok).length,
      (paginate store (fwdReq o sb limit tok) parse strV base).nextCursor =
        some (cursorFor sb strV
          ((remList store base o sb parse tok)[limit - 1])) ∧
      remList store base o sb parse
          (some (cursorFor sb strV
            ((remList store base o sb parse tok)[limit - 1]))) =
        (remList store base o sb parse tok).drop limit) ∧
    (remList store base o sb parse tok ≠ [] →
      (paginate store (fwdReq o sb limit tok) parse strV base).totalCount =
        (matching store base).length) := by
  obtain ⟨hdat, htot, hnextc, hprevc⟩ :=
    assemble_char store (fwdReq o sb limit tok) parse strV base
      (pdocs store (fwdReq o sb limit tok) parse base)
  have hpd : pdocs store (fwdReq o sb limit tok) parse base =
      (remList store base o sb parse tok).take limit :=
    fwdReq_pdocs store o sb limit tok parse base hn
  rw [paginate_eq_assemble store (fwdReq o sb limit tok) parse strV base, hpd]
  rw [hpd] at hdat htot hnextc hprevc
  simp only [fwdReq_limit, fwdReq_order, fwdReq_sortBy] at hnextc hprevc
  by_cases hRnil : remList store base o sb parse tok = []
  · refine ⟨hdat, ?_, ?_, ?_⟩
    · intro _
      rw [hnextc, hRnil]
      simp
    · intro hgt
      rw [hRnil] at hgt
      simp at hgt
    · intro h
      exact absurd hRnil h
  · have hLs := sortedMatching_sorted store base o sb
    have hLn : ((sortedMatching store base o sb).map Doc.id).Nodup :=
      @sortedMatching_nodup V _ store base o sb hn
    have hRle : (remList store base o sb parse tok).length ≤
        (sortedMatching store base o sb).length :=
      remList_length_le store base o sb parse tok
    have hsuf := remList_suffix store base o sb parse tok hwf
    have hR1 : 1 ≤ (remList store base o sb parse tok).length :=
      List.length_pos.mpr hRnil
    have h0lt : (0 : Nat) < (remList store base o sb parse tok).length := by omega
    have hm : (sortedMatching store base o sb).length -
        (remList store base o sb parse tok).length + 0 <
          (sortedMatching store base o sb).length := by omega
    have hfirst : (remList store base o sb parse tok)[0] =
        (sortedMatching store base o sb)[(sortedMatching store base o sb).length -
          (remList store base o sb parse tok).length + 0] :=
      remList_getElem store base o sb parse tok hwf 0 h0lt hm
    have hheadmem : (remList store base o sb parse tok)[0] ∈ store :=
      remList_subset (List.getElem_mem h0lt)
    have hheadq : ((remList store base o sb parse tok).take limit).head? =
        some ((remList store base o sb parse tok)[0]) := by
      rw [take_head_eq _ limit hlim, List.getElem?_eq_getElem h0lt]
    have hprevcount : prevProbeCount store (fwdReq o sb limit tok) parse strV base
        ((remList store base o sb parse tok).take limit) =
          (sortedMatching store base o sb).length -
            (remList store base o sb parse tok).length := by
      rw [prevProbeCount_spec store (fwdReq o sb limit tok) parse strV base
        ((remList store base o sb parse tok).take limit)
        ((remList store base o sb parse tok)[0]) hheadq
        (hinv _ hheadmem)]
      simp only [fwdReq_order, fwdReq_sortBy]
      rw [count_filter_pres store base o sb
        (fun d => specLt (presSpec o sb) d ((remList store base o sb parse tok)[0]))]
      rw [sorted_filter_lt_index (presSpec o sb) (sortedMatching store base o sb)
        hLs hLn ((sortedMatching store base o sb).length -
          (remList store base o sb parse tok).length) (by omega) _
        (by rw [hfirst]; simp)]
      rw [List.length_take]
      omega
    -- facts about the page's last record, available whenever limit ≤ R.length
    have hlastfacts : ∀ hge : limit ≤ (remList store base o sb parse tok).length,
        ∀ hklt : limit - 1 < (remList store base o sb parse tok).length,
        ∀ hgl : (sortedMatching store base o sb).length -
            (remList store base o sb parse tok).length + (limit - 1) <
              (sortedMatching store base o sb).length,
        ((remList store base o sb parse tok).take limit).getLast? =
            some ((remList store base o sb parse tok)[limit - 1]) ∧
        ((remList store base o sb parse tok)[limit - 1] ∈ store) ∧
        nextProbeCount store (fwdReq o sb limit tok) parse strV base
            ((remList store base o sb parse tok).take limit) =
          (remList store base o sb parse tok).length - limit := by
      intro hge hklt hgl
      have hidx : (sortedMatching store base o sb)[(sortedMatching store base o sb).length -
          (remList store base o sb parse tok).length + (limit - 1)] =
          (remList store base o sb parse tok)[limit - 1] :=
        (remList_getElem store base o sb parse tok hwf (limit - 1) hklt hgl).symm
      have hlastq : ((remList store base o sb parse tok).take limit).getLast? =
          some ((remList store base o sb parse tok)[limit - 1]) := by
        rw [take_getLast_eq _ limit hlim hRnil (by omega)]
        congr 1
        congr 1
        omega
      have hlastmem : (remList store base o sb parse tok)[limit - 1] ∈ store :=
        remList_subset (List.getElem_mem hklt)
      refine ⟨hlastq, hlastmem, ?_⟩
      rw [nextProbeCount_spec store (fwdReq o sb limit tok) parse strV base
        ((remList store base o sb parse tok).take limit)
        ((remList store base o sb parse tok)[limit - 1]) hlastq
        (hinv _ hlastmem)]
      simp only [fwdReq_order, fwdReq_sortBy, fwdReq_limit]
      rw [show ((remList store base o sb parse tok).take limit).length = limit from by
        rw [List.length_take]; omega]
      rw [if_pos rfl]
      rw [count_filter_pres store base o sb
        (fun d => specLt (presSpec o sb) ((remList store base o sb parse tok)[limit - 1]) d)]
      rw [sorted_filter_gt_index (presSpec o sb) (sortedMatching store base o sb)
        hLs hLn _ hgl _ hidx]
      rw [List.length_drop]
      omega
    refine ⟨hdat, ?_, ?_, ?_⟩
    · intro hle
      rw [hnextc]
      rcases Nat.lt_or_ge (remList store base o sb parse tok).length limit with hlt | hge
      · obtain ⟨x, hx⟩ : ∃ x, ((remList store base o sb parse tok).take limit).getLast? =
            some x := by
          cases hq : ((remList store base o sb parse tok).take limit).getLast? with
          | none =>
            rw [List.getLast?_eq_none_iff, List.take_of_length_le (by omega)] at hq
            exact absurd hq hRnil
          | some y => exact ⟨y, rfl⟩
        simp only [hx]
        have hlen : ((remList store base o sb parse tok).take limit).length ≠ limit := by
          rw [List.take_of_length_le (by omega)]
          omega
        rw [if_neg hlen]
      · have hexact : (remList store base o sb parse tok).length = limit := by omega
        have hklt : limit - 1 < (remList store base o sb parse tok).length := by omega
        have hgl : (sortedMatching store base o sb).length -
            (remList store base o sb parse tok).length + (limit - 1) <
              (sortedMatching store base o sb).length := by omega
        obtain ⟨hlastq, hlastmem, hnpc⟩ := hlastfacts hge hklt hgl
        simp only [hlastq]
        have hlen : ((remList store base o sb parse tok).take limit).length = limit := by
          rw [List.length_take]
          omega
        rw [if_pos hlen, if_pos (by rw [hnpc]; omega)]
    · intro hgt
      have hklt : limit - 1 < (remList store base o sb parse tok).length := by omega
      have hgl : (sortedMatching store base o sb).length -
          (remList store base o sb parse tok).length + (limit - 1) <
            (sortedMatching store base o sb).length := by omega
      obtain ⟨hlastq, hlastmem, hnpc⟩ := hlastfacts (by omega) hklt hgl
      have hidx : (sortedMatching store base o sb)[(sortedMatching store base o sb).length -
          (remList store base o sb parse tok).length + (limit - 1)] =
          (remList store base o sb parse tok)[limit - 1] :=
        (remList_getElem store base o sb parse tok hwf (limit - 1) hklt hgl).symm
      constructor
      · rw [hnextc]
        simp only [hlastq]
        have hlen : ((remList store base o sb parse tok).take limit).length = limit := by
          rw [List.length_take]
          omega
        rw [if_pos hlen, if_neg (by rw [hnpc]; omega)]
      · rw [remList]
        have hcongr : (sortedMatching store base o sb).filter
            (tokPred o parse (some (cursorFor sb strV
              ((remList store base o sb parse tok)[limit - 1])))) =
            (sortedMatching store base o sb).filter (fun d =>
              specLt (presSpec o sb)
                ((remList store base o sb parse tok)[limit - 1]) d) := by
          apply List.filter_congr
          intro d _
          rw [tokPred]
          exact cmpCursor_fwd_cursorFor o sb parse strV _ d (hinv _ hlastmem)
        rw [hcongr,
          sorted_filter_gt_index (presSpec o sb) (sortedMatching store base o sb)
            hLs hLn _ hgl _ hidx]
        conv_rhs => rw [hsuf]
        rw [List.drop_drop]
        congr 1
        omega
    · intro _
      rw [htot, hprevcount]
      rcases Nat.lt_or_ge (remList store base o sb parse tok).length limit with hlt | hge
      · have htake : (remList store base o sb parse tok).take limit =
            remList store base o sb parse tok := List.take_of_length_le (by omega)
        have hnpc : nextProbeCount store (fwdReq o sb limit tok) parse strV base
            ((remList store base o sb parse tok).take limit) = 0 := by
          rw [nextProbeCount]
          cases hq : ((remList store base o sb parse tok).take limit).getLast? with
          | none => simp only [hq]
          | some x =>
            simp only [hq]
            have hlen : ((remList store base o sb parse tok).take limit).length ≠
                (fwdReq o sb limit tok).limit := by
              rw [fwdReq_limit, htake]
              omega
            rw [if_neg hlen]
        rw [hnpc, htake, ← sortedMatching_length store base o sb]
        omega
      · have hklt : limit - 1 < (remList store base o sb parse tok).length := by omega
        have hgl : (sortedMatching store base o sb).length -
            (remList store base o sb parse tok).length + (limit - 1) <
              (sortedMatching store base o sb).length := by omega
        obtain ⟨hlastq, hlastmem, hnpc⟩ := hlastfacts hge hklt hgl
        rw [hnpc, List.length_take, ← sortedMatching_length store base o sb]
        omega

theorem cursorFor_wf {V : Type} (sb : SortBy) (strV : V → String) (x : Doc V) :
    wfCursor sb (cursorFor sb strV x) := by
  cases sb <;> simp [wfCursor, cursorFor]

/-- The traversal of the spec's completeness property: call `paginate` with no
cursor, then repeatedly with each returned nextCursor, concatenating the
pages; the Bool records whether the iteration terminated with a null
nextCursor within the given fuel. -/
def followNext {V : Type} [LinearOrder V] (store : List (Doc V)) (o : SortOrderType)
    (sb : SortBy) (limit : Nat) (parse : String → V) (strV : V → String)
    (base : Option (Doc V → Bool)) : Nat → Option CoreCursor → List (Doc V) × Bool
  | 0, _ => ([], false)
  | fuel + 1, tok =>
    let r := paginate store (fwdReq o sb limit tok) parse strV base
    match r.nextCursor with
    | none => (r.data, true)
    | some c =>
      let rest := followNext store o sb limit parse strV base fuel (some c)
      (r.data ++ rest.1, rest.2)

theorem followNext_spec {V : Type} [LinearOrder V] (store : List (Doc V))
    (o : SortOrderType) (sb : SortBy) (limit : Nat) (parse : String → V)
    (strV : V → String) (base : Option (Doc V → Bool))
    (hn : (store.map Doc.id).Nodup)
    (hinv : ∀ d ∈ store, parse (strV d.sv) = d.sv) (hlim : 1 ≤ limit) :
    ∀ (fuel : Nat) (tok : Option CoreCursor), wfTok sb tok →
      (remList store base o sb parse tok).length < fuel →
      followNext store o sb limit parse strV base fuel tok =
        (remList store base o sb parse tok, true) := by
  intro fuel
  induction fuel with
  | zero =>
    intro tok _ hlt
    omega
  | succ fuel ih =>
    intro tok hwf hlt
    obtain ⟨hdata, hnone, hsome, _⟩ :=
      forward_step store o sb limit parse strV base hn hinv hlim tok hwf
    rw [followNext]
    rcases Nat.lt_or_ge limit (remList store base o sb parse tok).length with hgt | hge
    · obtain ⟨hnext, hrem⟩ := hsome hgt
      simp only [hnext]
      have hwf2 : wfTok sb (some (cursorFor sb strV
          ((remList store base o sb parse tok)[limit - 1]))) :=
        cursorFor_wf sb strV _
      have hlt2 : (remList store base o sb parse (some (cursorFor sb strV
          ((remList store base o sb parse tok)[limit - 1])))).length < fuel := by
        rw [hrem, List.length_drop]
        omega
      rw [ih (some (cursorFor sb strV
        ((remList store base o sb parse tok)[limit - 1]))) hwf2 hlt2]
      simp only [hdata, hrem]
      rw [List.take_append_drop]
    · simp only [hnone hge]
      rw [hdata, List.take_of_length_le hge]

/-- Claim C4 (confirmed): starting with no cursor and repeatedly calling
`paginate` with each returned nextCursor, the concatenated pages are exactly
the sorted list of records matching the fixed filter (every matching record
exactly once, in the requested order with primary-key tie-breaking), and the
iteration terminates with a null nextCursor.  Hypotheses: distinct primary
keys in the store, limit at least 1 (the validated range is 1..50), and a
sort-value parser that inverts the serializer on the stored values. -/
theorem c4_traversal {V : Type} [LinearOrder V] (store : List (Doc V))
    (o : SortOrderType) (sb : SortBy) (limit : Nat) (parse : String → V)
    (strV : V → String) (base : Option (Doc V → Bool))
    (hn : (store.map Doc.id).Nodup)
    (hinv : ∀ d ∈ store, parse (strV d.sv) = d.sv) (hlim : 1 ≤ limit) :
    followNext store o sb limit parse strV base (store.length + 1) none =
      (sortedMatching store base o sb, true) ∧
    List.Perm (sortedMatching store base o sb) (matching store base) ∧
    (sortedMatching store base o sb).Sorted (SpecRel (presSpec o sb)) ∧
    (sortedMatching store base o sb).Nodup := by
  have hRnone : remList store base o sb parse none = sortedMatching store base o sb := by
    rw [remList]
    exact List.filter_eq_self.mpr (fun d _ => rfl)
  refine ⟨?_, List.perm_insertionSort (SpecRel (presSpec o sb)) (matching store base),
    sortedMatching_sorted store base o sb,
    (@sortedMatching_nodup V _ store base o sb hn).of_map⟩
  have hlen : (remList store base o sb parse none).length < store.length + 1 := by
    have h1 := remList_length_le store base o sb parse none
    have h2 := sortedMatching_length store base o sb
    have h3 : (matching store base).length ≤ store.length := List.length_filter_le _ _
    omega
  rw [followNext_spec store o sb limit parse strV base hn hinv hlim
    (store.length + 1) none trivial hlen, hRnone]

/-- Witness for C4 at a concrete instance: keys 1..15, desc, limit 10,
primary-key sort, no base filter. -/
theorem c4_traversal_witness :
    followNext store15 .desc .byId 10 parseZero strZero none (store15.length + 1) none =
      (sortedMatching store15 none .desc .byId, true) ∧
    List.Perm (sortedMatching store15 none .desc .byId) (matching store15 none) ∧
    (sortedMatching store15 none .desc .byId).Sorted (SpecRel (presSpec .desc .byId)) ∧
    (sortedMatching store15 none .desc .byId).Nodup :=
  c4_traversal store15 .desc .byId 10 parseZero strZero none (by decide) (by decide)
    (by decide)

/-! Backward traversal: flipped sort order and the backward fetch. -/

theorem specRel_flip {V : Type} [LinearOrder V] (o : SortOrderType) (sb : SortBy)
    (a b : Doc V) :
    SpecRel (presSpec (flipOrder o) sb) a b ↔ SpecRel (presSpec o sb) b a := by
  rw [SpecRel, SpecRel]
  cases o <;> cases sb
  · rw [presSpec, presSpec, specLe_idOnly_iff, specLe_idOnly_iff]
    simp [dirOf, flipOrder]
  · rw [presSpec, presSpec, specLe_svId_iff, specLe_svId_iff]
    simp [dirOf, flipOrder]
  · rw [presSpec, presSpec, specLe_idOnly_iff, specLe_idOnly_iff]
    simp [dirOf, flipOrder]
  · rw [presSpec, presSpec, specLe_svId_iff, specLe_svId_iff]
    simp [dirOf, flipOrder]

/-- Sorting the matching records by the flipped order reverses the
presentation list. -/
theorem sortedMatching_flip {V : Type} [LinearOrder V] (store : List (Doc V))
    (base : Option (Doc V → Bool)) (o : SortOrderType) (sb : SortBy)
    (hn : (store.map Doc.id).Nodup) :
    List.insertionSort (SpecRel (presSpec (flipOrder o) sb)) (matching store base) =
      (sortedMatching store base o sb).reverse := by
  apply sorted_unique (presSpec (flipOrder o) sb)
  · exact (List.perm_insertionSort _ _).trans
      ((List.perm_insertionSort (SpecRel (presSpec o sb)) (matching store base)).symm.trans
        (List.reverse_perm _).symm)
  · exact List.sorted_insertionSort _ _
  · rw [List.Sorted, List.pairwise_reverse]
    exact List.Pairwise.imp (fun h => (specRel_flip o sb _ _).mpr h)
      (sortedMatching_sorted store base o sb)
  · exact (((List.perm_insertionSort (SpecRel (presSpec (flipOrder o) sb))
      (matching store base)).map Doc.id).nodup_iff).mpr (matching_nodup hn)

/-- A backward request: a supplied prevCursor token with decode result `tok`
(`none` = the token fails to decode), plus an arbitrary nextCursor field
(which the code ignores). -/
def bwdReq (o : SortOrderType) (sb : SortBy) (limit : Nat)
    (tok : Option CoreCursor) (nc : Option (Option CoreCursor)) : PaginationFields :=
  { nextCursor := nc, prevCursor := some tok, order := o, limit := limit,
    sortBy := sb }

/-- The per-document predicate a backward request's cursor filter implements. -/
def bwdTokPred {V : Type} [LinearOrder V] (o : SortOrderType) (parse : String → V)
    (tok : Option CoreCursor) : Doc V → Bool :=
  match tok with
  | none => fun _ => true
  | some c => cmpCursor (bwdOp o) parse c

/-- The records a backward request can still reach (those before the cursor),
in presentation order. -/
def bwdRemList {V : Type} [LinearOrder V] (store : List (Doc V))
    (base : Option (Doc V → Bool)) (o : SortOrderType) (sb : SortBy)
    (parse : String → V) (tok : Option CoreCursor) : List (Doc V) :=
  (sortedMatching store base o sb).filter (bwdTokPred o parse tok)

theorem bwdReq_limit (o : SortOrderType) (sb : SortBy) (limit : Nat)
    (tok : Option CoreCursor) (nc : Option (Option CoreCursor)) :
    (bwdReq o sb limit tok nc).limit = limit := rfl

theorem bwdReq_order (o : SortOrderType) (sb : SortBy) (limit : Nat)
    (tok : Option CoreCursor) (nc : Option (Option CoreCursor)) :
    (bwdReq o sb limit tok nc).order = o := rfl

theorem bwdReq_sortBy (o : SortOrderType) (sb : SortBy) (limit : Nat)
    (tok : Option CoreCursor) (nc : Option (Option CoreCursor)) :
    (bwdReq o sb limit tok nc).sortBy = sb := rfl

theorem bwdReq_query {V : Type} [LinearOrder V] (o : SortOrderType) (sb : SortBy)
    (limit : Nat) (tok : Option CoreCursor) (nc : Option (Option CoreCursor))
    (parse : String → V) (base : Option (Doc V → Bool)) :
    (_getQuery (bwdReq o sb limit tok nc) parse base).reverse = true ∧
    (_getQuery (bwdReq o sb limit tok nc) parse base).limit = limit ∧
    (_getQuery (bwdReq o sb limit tok nc) parse base).sort =
      presSpec (flipOrder o) sb ∧
    (∀ d, evalF (_getQuery (bwdReq o sb limit tok nc) parse base).filter d =
      (bwdTokPred o parse tok d && baseEval base d)) := by
  cases tok with
  | none =>
    refine ⟨rfl, rfl, ?_, ?_⟩
    · rw [show (_getQuery (bwdReq o sb limit none nc) parse base).sort =
        (getFiltersFromCursor none
          (match o with | .desc => ((1 : Int), Op.gt) | .asc => ((-1 : Int), Op.lt))
          sb parse base).2 from rfl, getFilters_sort]
      cases o <;> cases sb <;> rfl
    · intro d
      rw [show (_getQuery (bwdReq o sb limit none nc) parse base).filter =
        (getFiltersFromCursor none
          (match o with | .desc => ((1 : Int), Op.gt) | .asc => ((-1 : Int), Op.lt))
          sb parse base).1 from rfl, evalF_none_filter]
      simp [bwdTokPred]
  | some c =>
    refine ⟨rfl, rfl, ?_, ?_⟩
    · rw [show (_getQuery (bwdReq o sb limit (some c) nc) parse base).sort =
        (getFiltersFromCursor (some c)
          (match o with | .desc => ((1 : Int), Op.gt) | .asc => ((-1 : Int), Op.lt))
          sb parse base).2 from rfl, getFilters_sort]
      cases o <;> cases sb <;> rfl
    · intro d
      rw [show (_getQuery (bwdReq o sb limit (some c) nc) parse base).filter =
        (getFiltersFromCursor (some c)
          (match o with | .desc => ((1 : Int), Op.gt) | .asc => ((-1 : Int), Op.lt))
          sb parse base).1 from rfl, evalF_cursor_filter]
      cases o <;> rfl

theorem bwdReq_pdocs {V : Type} [LinearOrder V] (store : List (Doc V))
    (o : SortOrderType) (sb : SortBy) (limit : Nat) (tok : Option CoreCursor)
    (nc : Option (Option CoreCursor)) (parse : String → V)
    (base : Option (Doc V → Bool)) (hn : (store.map Doc.id).Nodup) :
    pdocs store (bwdReq o sb limit tok nc) parse base =
      (bwdRemList store base o sb parse tok).drop
        ((bwdRemList store base o sb parse tok).length - limit) := by
  obtain ⟨hrev, hlim, hsort, hfil⟩ := bwdReq_query o sb limit tok nc parse base
  simp only [pdocs, hrev, if_true, reduceIte]
  rw [findDocs, hsort, hlim]
  have hfeq : store.filter
      (evalF (_getQuery (bwdReq o sb limit tok nc) parse base).filter) =
      (matching store base).filter (bwdTokPred o parse tok) := by
    rw [matching, List.filter_filter]
    exact List.filter_congr (fun d _ => hfil d)
  rw [hfeq, ← insertionSort_filter (presSpec (flipOrder o) sb) (matching store base)
    (bwdTokPred o parse tok) (matching_nodup hn)]
  rw [sortedMatching_flip store base o sb hn, List.filter_reverse,
    List.take_reverse, List.reverse_reverse]
  rfl

theorem bwdRemList_none {V : Type} [LinearOrder V] (store : List (Doc V))
    (base : Option (Doc V → Bool)) (o : SortOrderType) (sb : SortBy)
    (parse : String → V) :
    bwdRemList store base o sb parse none = sortedMatching store base o sb := by
  rw [bwdRemList]
  exact List.filter_eq_self.mpr (fun d _ => rfl)

/-- The backward-reachable records form a prefix of the sorted matching
records. -/
theorem bwdRemList_front {V : Type} [LinearOrder V] (store : List (Doc V))
    (base : Option (Doc V → Bool)) (o : SortOrderType) (sb : SortBy)
    (parse : String → V) (tok : Option CoreCursor) (hwf : wfTok sb tok) :
    bwdRemList store base o sb parse tok =
      (sortedMatching store base o sb).take
        ((bwdRemList store base o sb parse tok).length) := by
  rw [bwdRemList]
  apply sorted_filter_downClosed (presSpec o sb) (bwdTokPred o parse tok) ?_ _
    (sortedMatching_sorted store base o sb)
  intro d e hd hde
  cases tok with
  | none => rfl
  | some c => exact cmpCursor_bwd_downClosed hwf hd hde

theorem bwdRemList_getElem? {V : Type} [LinearOrder V] (store : List (Doc V))
    (base : Option (Doc V → Bool)) (o : SortOrderType) (sb : SortBy)
    (parse : String → V) (tok : Option CoreCursor) (hwf : wfTok sb tok)
    (i : Nat) (hi : i < (bwdRemList store base o sb parse tok).length) :
    (bwdRemList store base o sb parse tok)[i]? =
      (sortedMatching store base o sb)[i]? := by
  conv_lhs => rw [bwdRemList_front store base o sb parse tok hwf]
  rw [List.getElem?_take, if_pos hi]

/-- One backward call of `paginate`: the data is the last `limit` reachable
records in presentation order, and the totalCount is exact whenever the fetch
fills the limit or no cursor filter was applied. -/
theorem backward_step {V : Type} [LinearOrder V] (store : List (Doc V))
    (o : SortOrderType) (sb : SortBy) (limit : Nat) (parse : String → V)
    (strV : V → String) (base : Option (Doc V → Bool))
    (hn : (store.map Doc.id).Nodup)
    (hinv : ∀ d ∈ store, parse (strV d.sv) = d.sv) (hlim : 1 ≤ limit)
    (tok : Option CoreCursor) (nc : Option (Option CoreCursor)) (hwf : wfTok sb tok) :
    (paginate store (bwdReq o sb limit tok nc) parse strV base).data =
      (bwdRemList store base o sb parse tok).drop
        ((bwdRemList store base o sb parse tok).length - limit) ∧
    ((limit ≤ (bwdRemList store base o sb parse tok).length ∨ tok = none) →
      (paginate store (bwdReq o sb limit tok nc) parse strV base).totalCount =
        (matching store base).length) := by
  obtain ⟨hdat, htot, hnextc, hprevc⟩ :=
    assemble_char store (bwdReq o sb limit tok nc) parse strV base
      (pdocs store (bwdReq o sb limit tok nc) parse base)
  have hpd : pdocs store (bwdReq o sb limit tok nc) parse base =
      (bwdRemList store base o sb parse tok).drop
        ((bwdRemList store base o sb parse tok).length - limit) :=
    bwdReq_pdocs store o sb limit tok nc parse base hn
  rw [paginate_eq_assemble store (bwdReq o sb limit tok nc) parse strV base, hpd]
  rw [hpd] at hdat htot hnextc hprevc
  refine ⟨hdat, ?_⟩
  intro hcase
  have hLs := sortedMatching_sorted store base o sb
  have hLn : ((sortedMatching store base o sb).map Doc.id).Nodup :=
    @sortedMatching_nodup V _ store base o sb hn
  have hRle : (bwdRemList store base o sb parse tok).length ≤
      (sortedMatching store base o sb).length := List.length_filter_le _ _
  by_cases hRnil : bwdRemList store base o sb parse tok = []
  · -- empty reachable set: only possible under the hypothesis when tok = none,
    -- so no record matches at all
    have htoknone : tok = none := by
      rcases hcase with h | h
      · rw [hRnil] at h
        simp at h
        omega
      · exact h
    subst htoknone
    have hLnil : sortedMatching store base o sb = [] := by
      rw [← bwdRemList_none store base o sb parse]
      exact hRnil
    have hmat : (matching store base).length = 0 := by
      rw [← sortedMatching_length store base o sb, hLnil]
      rfl
    rw [htot, hmat, hRnil]
    simp [nextProbeCount, prevProbeCount]
  · have hR1 : 1 ≤ (bwdRemList store base o sb parse tok).length :=
      List.length_pos.mpr hRnil
    have hL1 : 1 ≤ (sortedMatching store base o sb).length := by omega
    rcases Nat.lt_or_ge (bwdRemList store base o sb parse tok).length limit with hlt | hge
    · -- short backward fetch: the hypothesis forces tok = none, so all
      -- matching records were fetched
      have htoknone : tok = none := by
        rcases hcase with h | h
        · omega
        · exact h
      subst htoknone
      rw [bwdRemList_none store base o sb parse] at hlt hR1 hRnil ⊢
      rw [bwdRemList_none store base o sb parse] at htot
      have hz : (sortedMatching store base o sb).length - limit = 0 := by omega
      rw [hz, List.drop_zero] at htot ⊢
      -- head is the global first record
      have hheadq : (sortedMatching store base o sb).head? =
          some ((sortedMatching store base o sb)[0]) := by
        rw [List.head?_eq_getElem?, List.getElem?_eq_getElem (by omega : (0 : Nat) <
          (sortedMatching store base o sb).length)]
      have hfmem : (sortedMatching store base o sb)[0] ∈ store :=
        sortedMatching_subset (List.getElem_mem _)
      have hppc : prevProbeCount store (bwdReq o sb limit none nc) parse strV base
          (sortedMatching store base o sb) = 0 := by
        rw [prevProbeCount_spec store (bwdReq o sb limit none nc) parse strV base
          (sortedMatching store base o sb) _ hheadq (hinv _ hfmem)]
        simp only [bwdReq_order, bwdReq_sortBy]
        rw [count_filter_pres store base o sb (fun d => specLt (presSpec o sb) d
          ((sortedMatching store base o sb)[0]))]
        rw [sorted_filter_lt_index (presSpec o sb) (sortedMatching store base o sb)
          hLs hLn 0 (by omega) _ rfl]
        rfl
      have hnpc : nextProbeCount store (bwdReq o sb limit none nc) parse strV base
          (sortedMatching store base o sb) = 0 := by
        rw [nextProbeCount]
        cases hq : (sortedMatching store base o sb).getLast? with
        | none => simp only [hq]
        | some x =>
          simp only [hq]
          have hlen : (sortedMatching store base o sb).length ≠
              (bwdReq o sb limit none nc).limit := by
            rw [bwdReq_limit]
            omega
          rw [if_neg hlen]
      rw [htot, hppc, hnpc, ← sortedMatching_length store base o sb]
      omega
    · -- full backward page
      have hm1 : (bwdRemList store base o sb parse tok).length - limit <
          (bwdRemList store base o sb parse tok).length := by omega
      have hm1L : (bwdRemList store base o sb parse tok).length - limit <
          (sortedMatching store base o sb).length := by omega
      have hdlen : ((bwdRemList store base o sb parse tok).drop
          ((bwdRemList store base o sb parse tok).length - limit)).length = limit := by
        rw [List.length_drop]
        omega
      -- the first fetched record
      have hheadq : ((bwdRemList store base o sb parse tok).drop
          ((bwdRemList store base o sb parse tok).length - limit)).head? =
          some ((sortedMatching store base o sb)[(bwdRemList store base o sb parse
            tok).length - limit]) := by
        rw [List.head?_eq_getElem?, List.getElem?_drop,
          show (bwdRemList store base o sb parse tok).length - limit + 0 =
            (bwdRemList store base o sb parse tok).length - limit from by omega,
          bwdRemList_getElem? store base o sb parse tok hwf _ hm1,
          List.getElem?_eq_getElem hm1L]
      have hfmem : (sortedMatching store base o sb)[(bwdRemList store base o sb parse
          tok).length - limit] ∈ store :=
        sortedMatching_subset (List.getElem_mem _)
      have hppc : prevProbeCount store (bwdReq o sb limit tok nc) parse strV base
          ((bwdRemList store base o sb parse tok).drop
            ((bwdRemList store base o sb parse tok).length - limit)) =
          (bwdRemList store base o sb parse tok).length - limit := by
        rw [prevProbeCount_spec store (bwdReq o sb limit tok nc) parse strV base
          _ _ hheadq (hinv _ hfmem)]
        simp only [bwdReq_order, bwdReq_sortBy]
        rw [count_filter_pres store base o sb (fun d => specLt (presSpec o sb) d
          ((sortedMatching store base o sb)[(bwdRemList store base o sb parse
            tok).length - limit]))]
        rw [sorted_filter_lt_index (presSpec o sb) (sortedMatching store base o sb)
          hLs hLn ((bwdRemList store base o sb parse tok).length - limit) hm1L _ rfl]
        rw [List.length_take]
        omega
      -- the last fetched record
      have hlast1 : (bwdRemList store base o sb parse tok).length - 1 <
          (sortedMatching store base o sb).length := by omega
      have hlastq : ((bwdRemList store base o sb parse tok).drop
          ((bwdRemList store base o sb parse tok).length - limit)).getLast? =
          some ((sortedMatching store base o sb)[(bwdRemList store base o sb parse
            tok).length - 1]) := by
        rw [List.getLast?_eq_getElem?, hdlen, List.getElem?_drop,
          show (bwdRemList store base o sb parse tok).length - limit + (limit - 1) =
            (bwdRemList store base o sb parse tok).length - 1 from by omega,
          bwdRemList_getElem? store base o sb parse tok hwf _ (by omega),
          List.getElem?_eq_getElem hlast1]
      have hlmem : (sortedMatching store base o sb)[(bwdRemList store base o sb parse
          tok).length - 1] ∈ store :=
        sortedMatching_subset (List.getElem_mem _)
      have hnpc : nextProbeCount store (bwdReq o sb limit tok nc) parse strV base
          ((bwdRemList store base o sb parse tok).drop
            ((bwdRemList store base o sb parse tok).length - limit)) =
          (sortedMatching store base o sb).length -
            (bwdRemList store base o sb parse tok).length := by
        rw [nextProbeCount_spec store (bwdReq o sb limit tok nc) parse strV base
          _ _ hlastq (hinv _ hlmem)]
        simp only [bwdReq_order, bwdReq_sortBy, bwdReq_limit]
        rw [hdlen, if_pos rfl]
        rw [count_filter_pres store base o sb (fun d => specLt (presSpec o sb)
          ((sortedMatching store base o sb)[(bwdRemList store base o sb parse
            tok).length - 1]) d)]
        rw [sorted_filter_gt_index (presSpec o sb) (sortedMatching store base o sb)
          hLs hLn ((bwdRemList store base o sb parse tok).length - 1) hlast1 _ rfl]
        rw [List.length_drop]
        omega
      rw [htot, hppc, hnpc, hdlen, ← sortedMatching_length store base o sb]
      omega

/-- Claim C3 (amended): totalCount always equals the fetched page length plus
the two probe counts, and that sum equals the exact number of records matching
the filter on every initial request, on every forward request whose fetch is
nonempty (or when nothing matches at all), and on every backward request that
either fills its limit or carries no decoded cursor; it is not exact on a
backward request that falls short of its limit while records remain after it. -/
theorem c3_amended {V : Type} [LinearOrder V] (store : List (Doc V))
    (o : SortOrderType) (sb : SortBy) (limit : Nat) (parse : String → V)
    (strV : V → String) (base : Option (Doc V → Bool))
    (hn : (store.map Doc.id).Nodup)
    (hinv : ∀ d ∈ store, parse (strV d.sv) = d.sv) (hlim : 1 ≤ limit) :
    (∀ pg : PaginationFields,
      (paginate store pg parse strV base).totalCount =
        (paginate store pg parse strV base).data.length +
          nextProbeCount store pg parse strV base (pdocs store pg parse base) +
          prevProbeCount store pg parse strV base (pdocs store pg parse base)) ∧
    (∀ tok : Option CoreCursor, wfTok sb tok →
      ((paginate store (fwdReq o sb limit tok) parse strV base).data ≠ [] ∨
          matching store base = []) →
      (paginate store (fwdReq o sb limit tok) parse strV base).totalCount =
        (matching store base).length) ∧
    (∀ (tok : Option CoreCursor) (nc : Option (Option CoreCursor)), wfTok sb tok →
      ((paginate store (bwdReq o sb limit tok nc) parse strV base).data.length =
          limit ∨ tok = none) →
      (paginate store (bwdReq o sb limit tok nc) parse strV base).totalCount =
        (matching store base).length) := by
  refine ⟨?_, ?_, ?_⟩
  · intro pg
    obtain ⟨hdat, htot, _, _⟩ :=
      assemble_char store pg parse strV base (pdocs store pg parse base)
    rw [paginate_eq_assemble store pg parse strV base, htot, hdat]
  · intro tok hwf hcase
    obtain ⟨hdat, _, _, htot⟩ :=
      forward_step store o sb limit parse strV base hn hinv hlim tok hwf
    rcases hcase with hne | hmat
    · apply htot
      intro hR
      rw [hdat, hR] at hne
      simp at hne
    · have hRnil : remList store base o sb parse tok = [] := by
        rw [remList, sortedMatching, hmat]
        rfl
      obtain ⟨_, htot2, _, _⟩ :=
        assemble_char store (fwdReq o sb limit tok) parse strV base
          (pdocs store (fwdReq o sb limit tok) parse base)
      have hpd : pdocs store (fwdReq o sb limit tok) parse base =
          (remList store base o sb parse tok).take limit :=
        fwdReq_pdocs store o sb limit tok parse base hn
      rw [paginate_eq_assemble store (fwdReq o sb limit tok) parse strV base, htot2,
        hpd, hRnil, hmat]
      simp [nextProbeCount, prevProbeCount]
  · intro tok nc hwf hcase
    obtain ⟨hdat, htot⟩ :=
      backward_step store o sb limit parse strV base hn hinv hlim tok nc hwf
    apply htot
    rcases hcase with hlen | hnone
    · left
      rw [hdat, List.length_drop] at hlen
      omega
    · right
      exact hnone

/-- Witness for the amended C3 on the concrete 15-record store: the probe-sum
formula on the backward request from key 12, and exact totals on the initial
request and on an invalid-prevCursor backward request. -/
theorem c3_amended_witness :
    ((List.map Doc.id store15).Nodup ∧ (1 : Nat) ≤ 10) ∧
    (paginate store15 reqBack12 parseZero strZero none).totalCount =
      (paginate store15 reqBack12 parseZero strZero none).data.length +
        nextProbeCount store15 reqBack12 parseZero strZero none
          (pdocs store15 reqBack12 parseZero none) +
        prevProbeCount store15 reqBack12 parseZero strZero none
          (pdocs store15 reqBack12 parseZero none) ∧
    (paginate store15 (fwdReq .desc .byId 10 none) parseZero strZero
        none).totalCount = (matching store15 none).length ∧
    (paginate store15 (bwdReq .desc .byId 10 none none) parseZero strZero
        none).totalCount = (matching store15 none).length :=
  ⟨⟨by decide, by decide⟩,
   (c3_amended store15 .desc .byId 10 parseZero strZero none (by decide)
      (by decide) (by decide)).1 reqBack12,
   (c3_amended store15 .desc .byId 10 parseZero strZero none (by decide)
      (by decide) (by decide)).2.1 none trivial (Or.inl (by decide)),
   (c3_amended store15 .desc .byId 10 parseZero strZero none (by decide)
      (by decide) (by decide)).2.2 none none trivial (Or.inr rfl)⟩

/-- Claim C9 (amended): a prevCursor that fails to decode yields no cursor
filter (the query filter matches exactly what the initial request's filter
matches) but still sets the reverse flag, so the fetch runs in the flipped
physical order; the resulting page is the LAST page of the matching records in
presentation order, which coincides with the initial request's response only
when every matching record fits within one page. -/
theorem c9_amended {V : Type} [LinearOrder V] (store : List (Doc V))
    (o : SortOrderType) (sb : SortBy) (limit : Nat)
    (nc : Option (Option CoreCursor)) (parse : String → V) (strV : V → String)
    (base : Option (Doc V → Bool)) (hn : (store.map Doc.id).Nodup)
    (hinv : ∀ d ∈ store, parse (strV d.sv) = d.sv) (hlim : 1 ≤ limit) :
    (_getQuery (bwdReq o sb limit none nc) parse base).reverse = true ∧
    (∀ d, evalF (_getQuery (bwdReq o sb limit none nc) parse base).filter d =
      evalF (_getQuery (fwdReq o sb limit none) parse base).filter d) ∧
    (paginate store (bwdReq o sb limit none nc) parse strV base).data =
      (sortedMatching store base o sb).drop
        ((sortedMatching store base o sb).length - limit) ∧
    ((matching store base).length ≤ limit →
      (paginate store (bwdReq o sb limit none nc) parse strV base).data =
        (paginate store (fwdReq o sb limit none) parse strV base).data) := by
  obtain ⟨hdatB, _⟩ :=
    backward_step store o sb limit parse strV base hn hinv hlim none nc trivial
  rw [bwdRemList_none store base o sb parse] at hdatB
  refine ⟨(bwdReq_query o sb limit none nc parse base).1, ?_, hdatB, ?_⟩
  · intro d
    rw [(bwdReq_query o sb limit none nc parse base).2.2.2 d,
      (fwdReq_query o sb limit none parse base).2.2.2 d]
    rfl
  · intro hfit
    obtain ⟨hdatF, _, _, _⟩ :=
      forward_step store o sb limit parse strV base hn hinv hlim none trivial
    have hRnone : remList store base o sb parse none =
        sortedMatching store base o sb := by
      rw [remList]
      exact List.filter_eq_self.mpr (fun d _ => rfl)
    have hLlen : (sortedMatching store base o sb).length ≤ limit := by
      rw [sortedMatching_length store base o sb]
      exact hfit
    rw [hdatB, hdatF, hRnone]
    have hz : (sortedMatching store base o sb).length - limit = 0 := by omega
    rw [hz, List.drop_zero, List.take_of_length_le hLlen]

/-- Witness for the amended C9: with limit 20 over the 15-record store, the
invalid-prevCursor request reverses, filters a sample record like the initial
request, returns the last (here: only) page, and coincides with the initial
response. -/
theorem c9_amended_witness :
    ((List.map Doc.id store15).Nodup ∧ (1 : Nat) ≤ 20 ∧
      (matching store15 none).length ≤ 20) ∧
    (_getQuery (bwdReq .desc .byId 20 none none) parseZero
      (none : Option (Doc Nat → Bool))).reverse = true ∧
    evalF (_getQuery (bwdReq .desc .byId 20 none none) parseZero
        (none : Option (Doc Nat → Bool))).filter ⟨3, 0⟩ =
      evalF (_getQuery (fwdReq .desc .byId 20 none) parseZero
        (none : Option (Doc Nat → Bool))).filter ⟨3, 0⟩ ∧
    (paginate store15 (bwdReq .desc .byId 20 none none) parseZero strZero
        none).data =
      (sortedMatching store15 none .desc .byId).drop
        ((sortedMatching store15 none .desc .byId).length - 20) ∧
    (paginate store15 (bwdReq .desc .byId 20 none none) parseZero strZero
        none).data =
      (paginate store15 (fwdReq .desc .byId 20 none) parseZero strZero none).data :=
  ⟨⟨by decide, by decide, by decide⟩,
   (c9_amended store15 .desc .byId 20 none parseZero strZero none (by decide)
      (by decide) (by decide)).1,
   (c9_amended store15 .desc .byId 20 none parseZero strZero none (by decide)
      (by decide) (by decide)).2.1 ⟨3, 0⟩,
   (c9_amended store15 .desc .byId 20 none parseZero strZero none (by decide)
      (by decide) (by decide)).2.2.1,
   (c9_amended store15 .desc .byId 20 none parseZero strZero none (by decide)
      (by decide) (by decide)).2.2.2 (by decide)⟩

end Pagination


namespace Codec

/-! Cursor codec layer: the hex/ObjectId validators, the byte-level codecs
(UTF-8 and base64) behind Buffer, the JSON fragment JSON.stringify and
JSON.parse implement, and the zod CursorSchema pipeline of encodeCursor and
decodeCursor. -/

/-- A JavaScript value as seen by a zod string schema: either a string or
anything else (which z.string() rejects). -/
inductive JsInput where
  | str (s : String)
  | other
deriving DecidableEq, Repr

/-- One character of the class [0-9A-F] under the /i flag. -/
def isHexDigit (c : Char) : Bool :=
  ('0' ≤ c && c ≤ '9') || ('A' ≤ c && c ≤ 'F') || ('a' ≤ c && c ≤ 'f')

def allHex (l : List Char) : Bool := l.all isHexDigit

/-- HEX_REGEX.test: the anchored regex (0x|0h)?[0-9A-F]+ under /i, with the
usual backtracking disjunction (either the two-character prefix is consumed,
or the whole string must be hex digits). -/
def hexRegexTest (s : String) : Bool :=
  (match s.data with
   | c0 :: c1 :: rest =>
     c0 = '0' && (c1 = 'x' || c1 = 'X' || c1 = 'h' || c1 = 'H') &&
       !rest.isEmpty && allHex rest
   | _ => false) ||
  (!s.data.isEmpty && allHex s.data)

/-- Source isObjectId: a string that matches HEX_REGEX and has length 24. -/
def isObjectId (value : JsInput) : Bool :=
  match value with
  | .str s => hexRegexTest s && s.length == 24
  | .other => false

/-- Source MongoIdSchema: z.string().min(24).refine(isObjectId). -/
def mongoIdCheck (s : String) : Bool :=
  decide (24 ≤ s.length) && isObjectId (.str s)

/-- Claim C10: isObjectId accepts exactly the strings of length 24 that match
the anchored regex (0x|0h)?[0-9A-F]+ case-insensitively (non-strings are
rejected); the regex holds iff the whole string is hex digits or a 0x / 0h
prefix (either letter case) is followed by at least one hex digit; the
MongoIdSchema check (min 24 plus the refinement) adds nothing beyond
isObjectId; and in particular the 24-character strings 0x/0h followed by 22
hex digits are accepted as cursor ids although they are not pure hex. -/
theorem c10_object_id :
    (∀ v : JsInput, isObjectId v = true ↔
      ∃ s : String, v = JsInput.str s ∧ s.length = 24 ∧ hexRegexTest s = true) ∧
    (∀ s : String, hexRegexTest s = true ↔
      ((s.data ≠ [] ∧ allHex s.data = true) ∨
        ∃ c rest, s.data = '0' :: c :: rest ∧
          (c = 'x' ∨ c = 'X' ∨ c = 'h' ∨ c = 'H') ∧ rest ≠ [] ∧
          allHex rest = true)) ∧
    (∀ s : String, mongoIdCheck s = isObjectId (JsInput.str s)) ∧
    isObjectId (JsInput.str "0xABCDEF0123456789ABCDEF") = true ∧
    isObjectId (JsInput.str "0h0123456789abcdef012345") = true ∧
    allHex "0xABCDEF0123456789ABCDEF".data = false ∧
    allHex "0h0123456789abcdef012345".data = false := by
  refine ⟨?_, ?_, ?_, by decide, by decide, by decide, by decide⟩
  · intro v
    cases v with
    | str s =>
      simp only [isObjectId, Bool.and_eq_true, beq_iff_eq, JsInput.str.injEq]
      constructor
      · rintro ⟨h1, h2⟩
        exact ⟨s, rfl, h2, h1⟩
      · rintro ⟨s2, rfl, h2, h1⟩
        exact ⟨h1, h2⟩
    | other => simp [isObjectId]
  · intro s
    rcases hs : s.data with _ | ⟨c0, t⟩
    · simp [hexRegexTest, hs]
    · rcases t with _ | ⟨c1, rest⟩
      · simp [hexRegexTest, hs, allHex]
      · simp only [hexRegexTest, hs, Bool.or_eq_true, Bool.and_eq_true,
          decide_eq_true_eq, Bool.not_eq_true', List.isEmpty_eq_false,
          List.isEmpty_iff, List.cons.injEq, ne_eq, reduceCtorEq,
          not_false_iff, true_and, List.cons_ne_nil]
        constructor
        · rintro (⟨⟨⟨h0, hc⟩, hne⟩, hh⟩ | hall)
          · refine Or.inr ⟨c1, rest, ⟨h0, rfl, rfl⟩, ?_, hne, hh⟩
            rcases hc with ((h | h) | h) | h
            · exact Or.inl h
            · exact Or.inr (Or.inl h)
            · exact Or.inr (Or.inr (Or.inl h))
            · exact Or.inr (Or.inr (Or.inr h))
          · exact Or.inl hall
        · rintro (hall | ⟨c, r, ⟨h0, rfl, rfl⟩, hc, hne, hh⟩)
          · exact Or.inr hall
          · refine Or.inl ⟨⟨⟨h0, ?_⟩, hne⟩, hh⟩
            rcases hc with h | h | h | h
            · exact Or.inl (Or.inl (Or.inl h))
            · exact Or.inl (Or.inl (Or.inr h))
            · exact Or.inl (Or.inr h)
            · exact Or.inr h
  · intro s
    by_cases h : 24 ≤ s.length
    · simp [mongoIdCheck, h]
    · have hne : s.length ≠ 24 := by omega
      simp [mongoIdCheck, isObjectId, h, hne]

/-! UTF-8: the byte encoding Buffer.from(string) performs and the decoding
toString with encoding utf8 performs (which never fails: malformed sequences
become U+FFFD). -/

/-- UTF-8 bytes of one unicode scalar value. -/
def utf8EncodeChar (c : Char) : List Nat :=
  let n := c.toNat
  if n < 128 then [n]
  else if n < 2048 then [192 + n / 64, 128 + n % 64]
  else if n < 65536 then [224 + n / 4096, 128 + n / 64 % 64, 128 + n % 64]
  else [240 + n / 262144, 128 + n / 4096 % 64, 128 + n / 64 % 64, 128 + n % 64]

def utf8Encode (l : List Char) : List Nat := l.flatMap utf8EncodeChar

/-- The replacement character U+FFFD emitted for malformed input. -/
def replChar : Char := Char.ofNat 65533

/-- A UTF-8 continuation byte. -/
def isCont (b : Nat) : Bool := decide (128 ≤ b) && decide (b < 192)

/-- One decoding step: the scalar value read at a lead byte (U+FFFD where the
sequence is malformed) and how many continuation bytes it consumed. -/
def utf8Step (b : Nat) (rest : List Nat) : Nat × Nat :=
  if b < 128 then (b, 0)
  else if b < 192 then (65533, 0)
  else if b < 224 then
    match rest with
    | b1 :: _ => if isCont b1 then ((b - 192) * 64 + (b1 - 128), 1) else (65533, 0)
    | [] => (65533, 0)
  else if b < 240 then
    match rest with
    | b1 :: b2 :: _ =>
      if isCont b1 && isCont b2 then
        ((b - 224) * 4096 + (b1 - 128) * 64 + (b2 - 128), 2)
      else (65533, 0)
    | _ => (65533, 0)
  else if b < 248 then
    match rest with
    | b1 :: b2 :: b3 :: _ =>
      if isCont b1 && isCont b2 && isCont b3 then
        ((b - 240) * 262144 + (b1 - 128) * 4096 + (b2 - 128) * 64 + (b3 - 128), 3)
      else (65533, 0)
    | _ => (65533, 0)
  else (65533, 0)

/-- Total UTF-8 decoding with explicit fuel (one unit per decoded scalar, so
the byte count is always enough): a malformed lead byte or missing
continuation byte yields U+FFFD and decoding resumes at the next byte, as in
Buffer.prototype.toString (which never throws). -/
def utf8DecodeF : Nat → List Nat → List Char
  | 0, _ => []
  | _ + 1, [] => []
  | fuel + 1, b :: rest =>
    Char.ofNat (utf8Step b rest).1 ::
      utf8DecodeF fuel (rest.drop (utf8Step b rest).2)

def utf8Decode (l : List Nat) : List Char := utf8DecodeF l.length l

theorem utf8DecodeF_cons (fuel b : Nat) (rest : List Nat) :
    utf8DecodeF (fuel + 1) (b :: rest) =
      Char.ofNat (utf8Step b rest).1 ::
        utf8DecodeF fuel (rest.drop (utf8Step b rest).2) := rfl

theorem char_toNat_lt (c : Char) : c.toNat < 1114112 := by
  have h := c.valid
  rcases h with h | ⟨_, h⟩
  · exact Nat.lt_trans h (by decide)
  · exact h

theorem utf8EncodeChar_lt_256 (c : Char) : ∀ b ∈ utf8EncodeChar c, b < 256 := by
  have hc := char_toNat_lt c
  intro b hb
  rw [utf8EncodeChar] at hb
  by_cases h1 : c.toNat < 128
  · rw [if_pos h1] at hb
    simp at hb
    omega
  · rw [if_neg h1] at hb
    by_cases h2 : c.toNat < 2048
    · rw [if_pos h2] at hb
      simp at hb
      rcases hb with rfl | rfl <;> omega
    · rw [if_neg h2] at hb
      by_cases h3 : c.toNat < 65536
      · rw [if_pos h3] at hb
        simp at hb
        rcases hb with rfl | rfl | rfl <;> omega
      · rw [if_neg h3] at hb
        simp at hb
        rcases hb with rfl | rfl | rfl | rfl <;> omega

theorem isCont_of_bounds {b : Nat} (h1 : 128 ≤ b) (h2 : b < 192) :
    isCont b = true := by
  rw [isCont]
  simp only [Bool.and_eq_true, decide_eq_true_eq]
  omega

/-- The decode step reads back exactly the scalar the encoder wrote. -/
theorem utf8Step_enc (c : Char) (bs : List Nat) :
    ∃ b more, utf8EncodeChar c = b :: more ∧
      utf8Step b (more ++ bs) = (c.toNat, more.length) := by
  have hc := char_toNat_lt c
  by_cases h1 : c.toNat < 128
  · refine ⟨c.toNat, [], by rw [utf8EncodeChar, if_pos h1], ?_⟩
    rw [List.nil_append]
    simp only [utf8Step]
    rw [if_pos h1]
    rfl
  · by_cases h2 : c.toNat < 2048
    · refine ⟨192 + c.toNat / 64, [128 + c.toNat % 64],
        by rw [utf8EncodeChar, if_neg h1, if_pos h2], ?_⟩
      rw [List.cons_append, List.nil_append]
      simp only [utf8Step]
      rw [if_neg (by omega), if_neg (by omega), if_pos (by omega),
        if_pos (isCont_of_bounds (by omega) (by omega))]
      rw [show (192 + c.toNat / 64 - 192) * 64 + (128 + c.toNat % 64 - 128) =
        c.toNat from by omega]
      rfl
    · by_cases h3 : c.toNat < 65536
      · refine ⟨224 + c.toNat / 4096,
          [128 + c.toNat / 64 % 64, 128 + c.toNat % 64],
          by rw [utf8EncodeChar, if_neg h1, if_neg h2, if_pos h3], ?_⟩
        rw [List.cons_append, List.cons_append, List.nil_append]
        simp only [utf8Step]
        rw [if_neg (by omega), if_neg (by omega), if_neg (by omega),
          if_pos (by omega)]
        rw [if_pos (by rw [isCont_of_bounds (by omega) (by omega),
          isCont_of_bounds (by omega) (by omega)]
                       rfl)]
        rw [show (224 + c.toNat / 4096 - 224) * 4096 +
          (128 + c.toNat / 64 % 64 - 128) * 64 + (128 + c.toNat % 64 - 128) =
          c.toNat from by omega]
        rfl
      · refine ⟨240 + c.toNat / 262144,
          [128 + c.toNat / 4096 % 64, 128 + c.toNat / 64 % 64,
            128 + c.toNat % 64],
          by rw [utf8EncodeChar, if_neg h1, if_neg h2, if_neg h3], ?_⟩
        rw [List.cons_append, List.cons_append, List.cons_append,
          List.nil_append]
        simp only [utf8Step]
        rw [if_neg (by omega), if_neg (by omega), if_neg (by omega),
          if_neg (by omega), if_pos (by omega)]
        rw [if_pos (by rw [isCont_of_bounds (by omega) (by omega),
          isCont_of_bounds (by omega) (by omega),
          isCont_of_bounds (by omega) (by omega)]
                       rfl)]
        rw [show (240 + c.toNat / 262144 - 240) * 262144 +
          (128 + c.toNat / 4096 % 64 - 128) * 4096 +
          (128 + c.toNat / 64 % 64 - 128) * 64 + (128 + c.toNat % 64 - 128) =
          c.toNat from by omega]
        rfl

theorem utf8DecodeF_encode : ∀ (l : List Char) (fuel : Nat),
    (utf8Encode l).length ≤ fuel → utf8DecodeF fuel (utf8Encode l) = l := by
  intro l
  induction l with
  | nil =>
    intro fuel _
    rw [show utf8Encode [] = [] from rfl]
    cases fuel <;> rfl
  | cons c t ih =>
    intro fuel hf
    obtain ⟨b, more, henc, hstep⟩ := utf8Step_enc c (utf8Encode t)
    have he : utf8Encode (c :: t) = b :: (more ++ utf8Encode t) := by
      rw [utf8Encode, List.flatMap_cons, ← utf8Encode, henc, List.cons_append]
    rw [he] at hf ⊢
    rw [List.length_cons, List.length_append] at hf
    cases fuel with
    | zero => omega
    | succ f =>
      rw [utf8DecodeF_cons, hstep, Char.ofNat_toNat, List.drop_left]
      rw [ih f (by omega)]

theorem utf8Decode_encode (l : List Char) : utf8Decode (utf8Encode l) = l :=
  utf8DecodeF_encode l (utf8Encode l).length (Nat.le_refl _)

/-! Base64: the standard alphabet, Buffer's encoder (toString with encoding
base64, which always pads), the group decoder (Node's forgiving decoder agrees
with it on the canonical padded forms zod's base64 regex admits), and that
regex itself. -/

def b64Char (n : Nat) : Char :=
  if n < 26 then Char.ofNat (65 + n)
  else if n < 52 then Char.ofNat (97 + (n - 26))
  else if n < 62 then Char.ofNat (48 + (n - 52))
  else if n = 62 then '+'
  else '/'

def b64Val (c : Char) : Option Nat :=
  if 'A' ≤ c && c ≤ 'Z' then some (c.toNat - 65)
  else if 'a' ≤ c && c ≤ 'z' then some (c.toNat - 97 + 26)
  else if '0' ≤ c && c ≤ '9' then some (c.toNat - 48 + 52)
  else if c == '+' then some 62
  else if c == '/' then some 63
  else none

/-- Membership in the regex class [0-9a-zA-Z+/]. -/
def isB64Alpha (c : Char) : Bool := (b64Val c).isSome

def b64EncodeBytes : List Nat → List Char
  | [] => []
  | [a] => [b64Char (a / 4), b64Char (a % 4 * 16), '=', '=']
  | [a, b] => [b64Char (a / 4), b64Char (a % 4 * 16 + b / 16),
      b64Char (b % 16 * 4), '=']
  | a :: b :: c :: rest =>
    b64Char (a / 4) :: b64Char (a % 4 * 16 + b / 16) ::
      b64Char (b % 16 * 4 + c / 64) :: b64Char (c % 64) :: b64EncodeBytes rest

def b64DecodeChars : List Char → Option (List Nat)
  | [] => some []
  | c1 :: c2 :: c3 :: c4 :: rest =>
    (b64Val c1).bind fun v1 =>
      (b64Val c2).bind fun v2 =>
        if c3 == '=' && c4 == '=' && rest.isEmpty then
          some [v1 * 4 + v2 / 16]
        else
          (b64Val c3).bind fun v3 =>
            if c4 == '=' && rest.isEmpty then
              some [v1 * 4 + v2 / 16, v2 % 16 * 16 + v3 / 4]
            else
              (b64Val c4).bind fun v4 =>
                (b64DecodeChars rest).map fun bs =>
                  (v1 * 4 + v2 / 16) :: (v2 % 16 * 16 + v3 / 4) ::
                    (v3 % 4 * 64 + v4) :: bs
  | _ => none

/-- Zod's base64 regex: whole groups of four alphabet characters, optionally
ending in a two-plus-double-pad or three-plus-single-pad group. -/
def b64Valid : List Char → Bool
  | [] => true
  | c1 :: c2 :: c3 :: c4 :: rest =>
    if c3 == '=' && c4 == '=' && rest.isEmpty then
      isB64Alpha c1 && isB64Alpha c2
    else if c4 == '=' && rest.isEmpty then
      isB64Alpha c1 && isB64Alpha c2 && isB64Alpha c3
    else
      isB64Alpha c1 && isB64Alpha c2 && isB64Alpha c3 && isB64Alpha c4 &&
        b64Valid rest
  | _ => false

theorem b64Val_b64Char : ∀ n, n < 64 → b64Val (b64Char n) = some n := by decide

theorem isB64Alpha_b64Char : ∀ n, n < 64 → isB64Alpha (b64Char n) = true := by
  decide

theorem b64Char_pad : ∀ n, n < 64 → (b64Char n == Char.ofNat 61) = false := by
  decide

theorem b64Valid_encode (bs : List Nat) (hb : ∀ b ∈ bs, b < 256) :
    b64Valid (b64EncodeBytes bs) = true := by
  induction bs using b64EncodeBytes.induct with
  | case1 => rfl
  | case2 a =>
    have ha : a < 256 := hb a (by simp)
    simp only [b64EncodeBytes, b64Valid]
    rw [if_pos (by decide)]
    rw [isB64Alpha_b64Char _ (by omega), isB64Alpha_b64Char _ (by omega)]
    rfl
  | case3 a b =>
    have ha : a < 256 := hb a (by simp)
    have hbb : b < 256 := hb b (by simp)
    simp only [b64EncodeBytes, b64Valid]
    rw [if_neg (by rw [show ('=' : Char) = Char.ofNat 61 from rfl,
      b64Char_pad _ (by omega)]
                   simp)]
    rw [if_pos (by decide)]
    rw [isB64Alpha_b64Char _ (by omega), isB64Alpha_b64Char _ (by omega),
      isB64Alpha_b64Char _ (by omega)]
    rfl
  | case4 a b c rest ih =>
    have ha : a < 256 := hb a (by simp)
    have hbb : b < 256 := hb b (by simp)
    have hcc : c < 256 := hb c (by simp)
    have hrest : ∀ x ∈ rest, x < 256 := fun x hx => hb x (by simp [hx])
    simp only [b64EncodeBytes, b64Valid]
    rw [if_neg (by rw [show ('=' : Char) = Char.ofNat 61 from rfl,
      b64Char_pad _ (by omega)]
                   simp)]
    rw [if_neg (by rw [show ('=' : Char) = Char.ofNat 61 from rfl,
      b64Char_pad _ (by omega)]
                   simp)]
    rw [isB64Alpha_b64Char _ (by omega), isB64Alpha_b64Char _ (by omega),
      isB64Alpha_b64Char _ (by omega), isB64Alpha_b64Char _ (by omega),
      ih hrest]
    rfl

theorem b64Decode_encode (bs : List Nat) (hb : ∀ b ∈ bs, b < 256) :
    b64DecodeChars (b64EncodeBytes bs) = some bs := by
  induction bs using b64EncodeBytes.induct with
  | case1 => rfl
  | case2 a =>
    have ha : a < 256 := hb a (by simp)
    simp only [b64EncodeBytes, b64DecodeChars]
    rw [b64Val_b64Char _ (by omega), b64Val_b64Char _ (by omega)]
    simp only [Option.some_bind]
    rw [if_pos (by decide)]
    rw [show a / 4 * 4 + a % 4 * 16 / 16 = a from by omega]
  | case3 a b =>
    have ha : a < 256 := hb a (by simp)
    have hbb : b < 256 := hb b (by simp)
    simp only [b64EncodeBytes, b64DecodeChars]
    rw [b64Val_b64Char _ (by omega), b64Val_b64Char _ (by omega)]
    simp only [Option.some_bind]
    rw [if_neg (by rw [show ('=' : Char) = Char.ofNat 61 from rfl,
      b64Char_pad _ (by omega)]
                   simp)]
    rw [b64Val_b64Char _ (by omega)]
    simp only [Option.some_bind]
    rw [if_pos (by decide)]
    rw [show a / 4 * 4 + (a % 4 * 16 + b / 16) / 16 = a from by omega,
      show (a % 4 * 16 + b / 16) % 16 * 16 + b % 16 * 4 / 4 = b from by omega]
  | case4 a b c rest ih =>
    have ha : a < 256 := hb a (by simp)
    have hbb : b < 256 := hb b (by simp)
    have hcc : c < 256 := hb c (by simp)
    have hrest : ∀ x ∈ rest, x < 256 := fun x hx => hb x (by simp [hx])
    simp only [b64EncodeBytes, b64DecodeChars]
    rw [b64Val_b64Char _ (by omega), b64Val_b64Char _ (by omega)]
    simp only [Option.some_bind]
    rw [if_neg (by rw [show ('=' : Char) = Char.ofNat 61 from rfl,
      b64Char_pad _ (by omega)]
                   simp)]
    rw [b64Val_b64Char _ (by omega)]
    simp only [Option.some_bind]
    rw [if_neg (by rw [show ('=' : Char) = Char.ofNat 61 from rfl,
      b64Char_pad _ (by omega)]
                   simp)]
    rw [b64Val_b64Char _ (by omega)]
    simp only [Option.some_bind]
    rw [ih hrest]
    simp only [Option.map_some']
    rw [show a / 4 * 4 + (a % 4 * 16 + b / 16) / 16 = a from by omega,
      show (a % 4 * 16 + b / 16) % 16 * 16 + (b % 16 * 4 + c / 64) / 4 = b from by
        omega,
      show (b % 16 * 4 + c / 64) % 4 * 64 + c % 64 = c from by omega]

/-! The JSON fragment: the value tree JSON.parse produces, JSON.stringify of
the cursor objects the module encodes, and JSON.parse itself over character
lists (a SyntaxError modelled as none). -/

inductive Json where
  | null
  | bool (b : Bool)
  | num (lexeme : String)
  | str (s : String)
  | arr (elems : List Json)
  | obj (members : List (String × Json))

def toHexDigit (n : Nat) : Char :=
  if n < 10 then Char.ofNat (48 + n) else Char.ofNat (87 + n)

/-- JSON.stringify escaping of one string character: quote and backslash, the
short escapes for the named control characters, u-escapes (lowercase hex) for
the remaining control characters, everything else verbatim. -/
def escapeChar (c : Char) : List Char :=
  if c == '"' then ['\\', '"']
  else if c == '\\' then ['\\', '\\']
  else if c.toNat = 8 then ['\\', 'b']
  else if c.toNat = 9 then ['\\', 't']
  else if c.toNat = 10 then ['\\', 'n']
  else if c.toNat = 12 then ['\\', 'f']
  else if c.toNat = 13 then ['\\', 'r']
  else if c.toNat < 32 then
    ['\\', 'u', '0', '0', toHexDigit (c.toNat / 16), toHexDigit (c.toNat % 16)]
  else [c]

def quoteString (s : String) : List Char :=
  '"' :: (s.data.flatMap escapeChar ++ ['"'])

/-- The decoded cursor shape (z.infer of CursorSchema). -/
structure DecodedCursor where
  id : String
  v : Option String
deriving DecidableEq, Repr

/-- JSON.stringify of the cursor object; a v property that is undefined is
omitted, as JSON.stringify does. -/
def stringifyCursor (c : DecodedCursor) : List Char :=
  match c.v with
  | none =>
    ('\x7b' :: quoteString "id") ++ (':' :: quoteString c.id) ++ ['\x7d']
  | some v =>
    ('\x7b' :: quoteString "id") ++ (':' :: quoteString c.id) ++
      (',' :: quoteString "v") ++ (':' :: quoteString v) ++ ['\x7d']

/-- The JSON value stringifyCursor serializes. -/
def cursorJson (c : DecodedCursor) : Json :=
  Json.obj (("id", Json.str c.id) ::
    (match c.v with
     | none => []
     | some v => [("v", Json.str v)]))

def isJWs (c : Char) : Bool :=
  c == ' ' || c.toNat = 9 || c.toNat = 10 || c.toNat = 13

def skipWs : List Char → List Char
  | [] => []
  | c :: rest => if isJWs c then skipWs rest else c :: rest

def hexVal (c : Char) : Option Nat :=
  if '0' ≤ c && c ≤ '9' then some (c.toNat - 48)
  else if 'a' ≤ c && c ≤ 'f' then some (c.toNat - 97 + 10)
  else if 'A' ≤ c && c ≤ 'F' then some (c.toNat - 65 + 10)
  else none

/-- One step inside a JSON string literal: none is a SyntaxError, (none, _)
the closing quote, (some ch, k) a produced character consuming k further
input characters. -/
def strStep (c : Char) (rest : List Char) : Option (Option Char × Nat) :=
  if c == '"' then some (none, 0)
  else if c == '\\' then
    match rest with
    | [] => none
    | e :: rest2 =>
      if e == '"' then some (some '"', 1)
      else if e == '\\' then some (some '\\', 1)
      else if e == '/' then some (some '/', 1)
      else if e == 'b' then some (some (Char.ofNat 8), 1)
      else if e == 'f' then some (some (Char.ofNat 12), 1)
      else if e == 'n' then some (some (Char.ofNat 10), 1)
      else if e == 'r' then some (some (Char.ofNat 13), 1)
      else if e == 't' then some (some (Char.ofNat 9), 1)
      else if e == 'u' then
        match rest2 with
        | h1 :: h2 :: h3 :: h4 :: _ =>
          match hexVal h1, hexVal h2, hexVal h3, hexVal h4 with
          | some n1, some n2, some n3, some n4 =>
            some (some (Char.ofNat (n1 * 4096 + n2 * 256 + n3 * 16 + n4)), 5)
          | _, _, _, _ => none
        | _ => none
      else none
  else if c.toNat < 32 then none
  else some (some c, 0)

/-- The body of a JSON string literal (after the opening quote), with fuel
(one unit per input character suffices). -/
def parseJStr : Nat → List Char → Option (List Char × List Char)
  | 0, _ => none
  | _ + 1, [] => none
  | fuel + 1, c :: rest =>
    match strStep c rest with
    | none => none
    | some (none, _) => some ([], rest)
    | some (some ch, k) =>
      (parseJStr fuel (rest.drop k)).map fun p => (ch :: p.1, p.2)

def isDigit (c : Char) : Bool := '0' ≤ c && c ≤ '9'

def digitSpan : List Char → List Char × List Char
  | [] => ([], [])
  | c :: rest =>
    if isDigit c then
      let p := digitSpan rest
      (c :: p.1, p.2)
    else ([], c :: rest)

def parseIntPart : List Char → Option (List Char × List Char)
  | [] => none
  | c :: rest =>
    if c == '0' then some ([c], rest)
    else if '1' ≤ c && c ≤ '9' then
      let p := digitSpan rest
      some (c :: p.1, p.2)
    else none

def parseFracPart : List Char → Option (List Char × List Char)
  | [] => some ([], [])
  | c :: rest =>
    if c == '.' then
      match digitSpan rest with
      | (d :: ds, r) => some (c :: d :: ds, r)
      | ([], _) => none
    else some ([], c :: rest)

def parseExpPart : List Char → Option (List Char × List Char)
  | [] => some ([], [])
  | c :: rest =>
    if c == 'e' || c == 'E' then
      let sg := match rest with
        | s :: r => if s == '+' || s == '-' then ([s], r) else (([] : List Char), rest)
        | [] => (([] : List Char), rest)
      match digitSpan sg.2 with
      | (d :: ds, r2) => some (c :: (sg.1 ++ d :: ds), r2)
      | ([], _) => none
    else some ([], c :: rest)

/-- A JSON number: -?(0|[1-9][0-9]*)(.[0-9]+)?([eE][+-]?[0-9]+)? -/
def parseNum (l : List Char) : Option (List Char × List Char) :=
  let sp := match l with
    | c :: rest => if c == '-' then ([c], rest) else (([] : List Char), l)
    | [] => (([] : List Char), l)
  (parseIntPart sp.2).bind fun ip =>
    (parseFracPart ip.2).bind fun fp =>
      (parseExpPart fp.2).map fun ep =>
        (sp.1 ++ ip.1 ++ fp.1 ++ ep.1, ep.2)

mutual

/-- JSON.parse of one value, with fuel bounding the recursion (callers pass
more than enough for any input of the given length). -/
def parseVal : Nat → List Char → Option (Json × List Char)
  | 0, _ => none
  | fuel + 1, l =>
    match skipWs l with
    | [] => none
    | c :: rest =>
      if c == '"' then
        (parseJStr (rest.length + 1) rest).map fun p =>
          (Json.str (String.mk p.1), p.2)
      else if c == 't' then
        if rest.take 3 == ['r', 'u', 'e'] then some (Json.bool true, rest.drop 3)
        else none
      else if c == 'f' then
        if rest.take 4 == ['a', 'l', 's', 'e'] then
          some (Json.bool false, rest.drop 4)
        else none
      else if c == 'n' then
        if rest.take 3 == ['u', 'l', 'l'] then some (Json.null, rest.drop 3)
        else none
      else if c == '[' then
        (parseArrBody fuel rest).map fun p => (Json.arr p.1, p.2)
      else if c == '\x7b' then
        (parseObjBody fuel rest).map fun p => (Json.obj p.1, p.2)
      else
        (parseNum (c :: rest)).map fun p => (Json.num (String.mk p.1), p.2)

def parseArrBody : Nat → List Char → Option (List Json × List Char)
  | 0, _ => none
  | fuel + 1, l =>
    match skipWs l with
    | [] => none
    | c :: r =>
      if c == ']' then some ([], r)
      else
        (parseVal fuel (c :: r)).bind fun p =>
          (parseArrTail fuel p.2).map fun q => (p.1 :: q.1, q.2)

def parseArrTail : Nat → List Char → Option (List Json × List Char)
  | 0, _ => none
  | fuel + 1, l =>
    match skipWs l with
    | [] => none
    | c :: r =>
      if c == ']' then some ([], r)
      else if c == ',' then
        (parseVal fuel r).bind fun p =>
          (parseArrTail fuel p.2).map fun q => (p.1 :: q.1, q.2)
      else none

def parseMember : Nat → List Char → Option ((String × Json) × List Char)
  | 0, _ => none
  | fuel + 1, l =>
    match skipWs l with
    | [] => none
    | c :: r =>
      if c == '"' then
        (parseJStr (r.length + 1) r).bind fun pk =>
          match skipWs pk.2 with
          | [] => none
          | c2 :: r2 =>
            if c2 == ':' then
              (parseVal fuel r2).map fun pv => ((String.mk pk.1, pv.1), pv.2)
            else none
      else none

def parseObjBody : Nat → List Char → Option (List (String × Json) × List Char)
  | 0, _ => none
  | fuel + 1, l =>
    match skipWs l with
    | [] => none
    | c :: r =>
      if c == '\x7d' then some ([], r)
      else
        (parseMember fuel (c :: r)).bind fun p =>
          (parseObjTail fuel p.2).map fun q => (p.1 :: q.1, q.2)

def parseObjTail : Nat → List Char → Option (List (String × Json) × List Char)
  | 0, _ => none
  | fuel + 1, l =>
    match skipWs l with
    | [] => none
    | c :: r =>
      if c == '\x7d' then some ([], r)
      else if c == ',' then
        (parseMember fuel r).bind fun p =>
          (parseObjTail fuel p.2).map fun q => (p.1 :: q.1, q.2)
      else none

end

/-- JSON.parse: a whole text is one value plus trailing whitespace; none is a
thrown SyntaxError. -/
def jsonParse (s : String) : Option Json :=
  (parseVal (2 * s.data.length + 2) s.data).bind fun p =>
    if (skipWs p.2).isEmpty then some p.1 else none

mutual

/-- String(value) for the JSON values a coercing z.string can receive:
arrays join their elements with commas (null joining as the empty string),
plain objects display as [object Object]; number lexemes are carried
verbatim. -/
def coerceString : Json → String
  | Json.null => "null"
  | Json.bool b => if b then "true" else "false"
  | Json.num lexeme => lexeme
  | Json.str s => s
  | Json.arr elems => coerceElems elems
  | Json.obj _ => "[object Object]"

def coerceElems : List Json → String
  | [] => ""
  | [Json.null] => ""
  | [j] => coerceString j
  | Json.null :: rest => "," ++ coerceElems rest
  | j :: rest => coerceString j ++ "," ++ coerceElems rest

end

/-- The piped z.object: a non-object fails, unknown keys are stripped, id must
be a string accepted by MongoIdSchema, v is coerced to a string when present
(duplicate JSON keys resolve to the last occurrence, as JSON.parse keeps the
last value it assigns). -/
def validateCursor : Json → Option DecodedCursor
  | Json.obj ms =>
    match ms.reverse.lookup "id" with
    | some (Json.str s) =>
      if mongoIdCheck s then
        match ms.reverse.lookup "v" with
        | none => some ⟨s, none⟩
        | some jv => some ⟨s, some (coerceString jv)⟩
      else none
    | _ => none
  | _ => none

/-- What a call of decodeCursor can do: return a cursor, return null
(absent), or let an exception escape. -/
inductive DecodeResult where
  | ok (c : DecodedCursor)
  | absent
  | thrown
deriving DecidableEq, Repr

/-- Source encodeCursor: Buffer.from(JSON.stringify(cursor)).toString(base64). -/
def encodeCursor (c : DecodedCursor) : String :=
  String.mk (b64EncodeBytes (utf8Encode (stringifyCursor c)))

/-- Source decodeCursor = CursorSchema.safeParse: the zod base64 regex gate
(a failure is a caught ZodError, so absent), then the transform — whose
JSON.parse SyntaxError escapes safeParse, which only catches ZodErrors — and
the piped object schema (failures caught, absent). The decode branch for a
regex-valid string that the group decoder rejects is unreachable. -/
def decodeCursor (encoded : String) : DecodeResult :=
  if b64Valid encoded.data then
    match b64DecodeChars encoded.data with
    | none => DecodeResult.absent
    | some bytes =>
      match jsonParse (String.mk (utf8Decode bytes)) with
      | none => DecodeResult.thrown
      | some j =>
        match validateCursor j with
        | none => DecodeResult.absent
        | some c => DecodeResult.ok c
  else DecodeResult.absent

theorem string_mk_data (s : String) : String.mk s.data = s := rfl

theorem coerceString_str (s : String) : coerceString (Json.str s) = s := by
  rw [coerceString]

theorem escapeChar_len (c : Char) : 1 ≤ (escapeChar c).length := by
  rw [escapeChar]
  split_ifs <;> simp

theorem flatMap_escape_len (l : List Char) :
    l.length ≤ (l.flatMap escapeChar).length := by
  induction l with
  | nil => simp
  | cons c t ih =>
    rw [List.flatMap_cons, List.length_append, List.length_cons]
    have := escapeChar_len c
    omega

theorem hexVal_toHexDigit : ∀ n, n < 16 → hexVal (toHexDigit n) = some n := by
  decide

/-- Parsing reads back exactly the character the stringifier escaped. -/
theorem strStep_escape (c : Char) (X : List Char) :
    ∃ e es, escapeChar c = e :: es ∧
      strStep e (es ++ X) = some (some c, es.length) := by
  by_cases hq : c = '"'
  · subst hq
    exact ⟨'\\', ['"'], by decide, by simp +decide [strStep]⟩
  · by_cases hb : c = '\\'
    · subst hb
      exact ⟨'\\', ['\\'], by decide, by simp +decide [strStep]⟩
    · have hq' : (c == '"') = false := by simp [hq]
      have hb' : (c == '\\') = false := by simp [hb]
      by_cases h8 : c.toNat = 8
      · have hc : c = Char.ofNat 8 := by rw [← Char.ofNat_toNat c, h8]
        refine ⟨'\\', ['b'], ?_, ?_⟩
        · simp only [escapeChar, hq', hb', h8, ite_true, ite_false,
            Bool.false_eq_true, if_false]
        · rw [List.cons_append, List.nil_append, hc]
          simp +decide [strStep]
      · by_cases h9 : c.toNat = 9
        · have hc : c = Char.ofNat 9 := by rw [← Char.ofNat_toNat c, h9]
          refine ⟨'\\', ['t'], ?_, ?_⟩
          · simp only [escapeChar, hq', hb', h8, h9, ite_true, ite_false,
              Bool.false_eq_true, if_false]
            decide
          · rw [List.cons_append, List.nil_append, hc]
            simp +decide [strStep]
        · by_cases h10 : c.toNat = 10
          · have hc : c = Char.ofNat 10 := by rw [← Char.ofNat_toNat c, h10]
            refine ⟨'\\', ['n'], ?_, ?_⟩
            · simp only [escapeChar, hq', hb', h8, h9, h10, ite_true, ite_false,
                Bool.false_eq_true, if_false]
              decide
            · rw [List.cons_append, List.nil_append, hc]
              simp +decide [strStep]
          · by_cases h12 : c.toNat = 12
            · have hc : c = Char.ofNat 12 := by rw [← Char.ofNat_toNat c, h12]
              refine ⟨'\\', ['f'], ?_, ?_⟩
              · simp only [escapeChar, hq', hb', h8, h9, h10, h12, ite_true,
                  ite_false, Bool.false_eq_true, if_false]
                decide
              · rw [List.cons_append, List.nil_append, hc]
                simp +decide [strStep]
            · by_cases h13 : c.toNat = 13
              · have hc : c = Char.ofNat 13 := by rw [← Char.ofNat_toNat c, h13]
                refine ⟨'\\', ['r'], ?_, ?_⟩
                · simp only [escapeChar, hq', hb', h8, h9, h10, h12, h13,
                    ite_true, ite_false, Bool.false_eq_true, if_false]
                  decide
                · rw [List.cons_append, List.nil_append, hc]
                  simp +decide [strStep]
              · by_cases hctl : c.toNat < 32
                · refine ⟨'\\', ['u', '0', '0', toHexDigit (c.toNat / 16),
                    toHexDigit (c.toNat % 16)], ?_, ?_⟩
                  · simp only [escapeChar, hq', hb', h8, h9, h10, h12, h13,
                      hctl, ite_true, ite_false, Bool.false_eq_true, if_false,
                      if_true]
                  · simp only [List.cons_append, List.nil_append]
                    simp +decide only [strStep, ite_true, ite_false,
                      show hexVal '0' = some 0 from by decide,
                      hexVal_toHexDigit (c.toNat / 16) (by omega),
                      hexVal_toHexDigit (c.toNat % 16) (by omega)]
                    rw [show 0 * 4096 + 0 * 256 + c.toNat / 16 * 16 +
                      c.toNat % 16 = c.toNat from by omega, Char.ofNat_toNat]
                    rfl
                · refine ⟨c, [], ?_, ?_⟩
                  · simp only [escapeChar, hq', hb', h8, h9, h10, h12, h13,
                      hctl, ite_true, ite_false, Bool.false_eq_true, if_false]
                  · rw [List.nil_append]
                    simp only [strStep, hq', hb', ite_true, ite_false,
                      Bool.false_eq_true, if_false]
                    rw [if_neg hctl]
                    rfl

/-- The string-literal parser inverts JSON.stringify escaping. -/
theorem parseJStr_escape : ∀ (l : List Char) (fuel : Nat) (rest : List Char),
    l.length < fuel →
    parseJStr fuel (l.flatMap escapeChar ++ ('"' :: rest)) =
      some (l, rest) := by
  intro l
  induction l with
  | nil =>
    intro fuel rest hf
    cases fuel with
    | zero => exact absurd hf (Nat.not_lt_zero _)
    | succ f =>
      rw [show ([] : List Char).flatMap escapeChar = [] from rfl,
        List.nil_append]
      simp +decide only [parseJStr, strStep, ite_true]
  | cons c t ih =>
    intro fuel rest hf
    cases fuel with
    | zero => exact absurd hf (Nat.not_lt_zero _)
    | succ f =>
      obtain ⟨e, es, hesc, hstep⟩ :=
        strStep_escape c (t.flatMap escapeChar ++ ('"' :: rest))
      rw [List.flatMap_cons, hesc]
      simp only [List.cons_append, List.append_assoc]
      simp only [parseJStr, hstep]
      rw [List.drop_left]
      rw [ih f rest (by rw [List.length_cons] at hf; omega)]
      rfl

theorem parseVal_string (fuel : Nat) (s : String) (suffix : List Char) :
    parseVal (fuel + 1) (quoteString s ++ suffix) =
      some (Json.str s, suffix) := by
  simp only [quoteString, List.cons_append, List.append_assoc, List.nil_append]
  simp +decide only [parseVal, skipWs, ite_true, ite_false]
  rw [parseJStr_escape s.data _ suffix (by
    have := flatMap_escape_len s.data
    simp only [List.length_append, List.length_cons]
    omega)]
  simp only [Option.map_some']

theorem parseMember_kv (fuel : Nat) (key s : String) (suffix : List Char) :
    parseMember (fuel + 2)
      ('"' :: (key.data.flatMap escapeChar ++
        ('"' :: ':' :: (quoteString s ++ suffix)))) =
      some ((key, Json.str s), suffix) := by
  rw [show fuel + 2 = (fuel + 1) + 1 from rfl]
  simp +decide only [parseMember, skipWs, ite_true, ite_false]
  rw [parseJStr_escape key.data _ _ (by
    have := flatMap_escape_len key.data
    simp only [List.length_append, List.length_cons]
    omega)]
  simp +decide only [Option.some_bind, skipWs, ite_true, ite_false]
  rw [parseVal_string fuel s suffix]
  simp only [Option.map_some']

theorem stringifyCursor_eq_none (c : DecodedCursor) (h : c.v = none) :
    stringifyCursor c =
      '\x7b' :: ('"' :: ("id".data.flatMap escapeChar ++
        ('"' :: ':' :: (quoteString c.id ++ ['\x7d'])))) := by
  simp only [stringifyCursor, h]
  rw [show quoteString "id" =
    '"' :: ("id".data.flatMap escapeChar ++ ['"']) from rfl]
  simp only [List.cons_append, List.append_assoc, List.nil_append]

theorem stringifyCursor_eq_some (c : DecodedCursor) (v : String)
    (h : c.v = some v) :
    stringifyCursor c =
      '\x7b' :: ('"' :: ("id".data.flatMap escapeChar ++
        ('"' :: ':' :: (quoteString c.id ++
          (',' :: ('"' :: ("v".data.flatMap escapeChar ++
            ('"' :: ':' :: (quoteString v ++ ['\x7d']))))))))) := by
  simp only [stringifyCursor, h]
  rw [show quoteString "id" =
    '"' :: ("id".data.flatMap escapeChar ++ ['"']) from rfl]
  rw [show quoteString "v" =
    '"' :: ("v".data.flatMap escapeChar ++ ['"']) from rfl]
  simp only [List.cons_append, List.append_assoc, List.nil_append]

theorem parseVal_obj (fuel : Nat) (r : List Char) :
    parseVal (fuel + 1) ('\x7b' :: r) =
      (parseObjBody fuel r).map fun p => (Json.obj p.1, p.2) := by
  rw [parseVal]
  simp +decide only [skipWs, ite_true, ite_false]

theorem parseObjBody_quote (fuel : Nat) (r : List Char) :
    parseObjBody (fuel + 1) ('"' :: r) =
      (parseMember fuel ('"' :: r)).bind fun p =>
        (parseObjTail fuel p.2).map fun q => (p.1 :: q.1, q.2) := by
  rw [parseObjBody]
  simp +decide only [skipWs, ite_true, ite_false]

theorem parseObjTail_close (fuel : Nat) (r : List Char) :
    parseObjTail (fuel + 1) ('\x7d' :: r) = some ([], r) := by
  rw [parseObjTail]
  simp +decide only [skipWs, ite_true, ite_false]

theorem parseObjTail_comma (fuel : Nat) (r : List Char) :
    parseObjTail (fuel + 1) (',' :: r) =
      (parseMember fuel r).bind fun p =>
        (parseObjTail fuel p.2).map fun q => (p.1 :: q.1, q.2) := by
  rw [parseObjTail]
  simp +decide only [skipWs, ite_true, ite_false]

theorem parseVal_cursor (c : DecodedCursor) (k : Nat) :
    parseVal (k + 6) (stringifyCursor c) = some (cursorJson c, []) := by
  rcases hv : c.v with _ | v
  · rw [stringifyCursor_eq_none c hv]
    rw [show k + 6 = (k + 5) + 1 from rfl, parseVal_obj]
    rw [show k + 5 = (k + 4) + 1 from rfl, parseObjBody_quote]
    rw [show k + 4 = (k + 2) + 2 from rfl,
      parseMember_kv (k + 2) "id" c.id ['\x7d']]
    simp only [Option.some_bind]
    rw [show (k + 2) + 2 = (k + 3) + 1 from rfl, parseObjTail_close]
    simp only [Option.map_some']
    simp [cursorJson, hv]
  · rw [stringifyCursor_eq_some c v hv]
    rw [show k + 6 = (k + 5) + 1 from rfl, parseVal_obj]
    rw [show k + 5 = (k + 4) + 1 from rfl, parseObjBody_quote]
    rw [show k + 4 = (k + 2) + 2 from rfl,
      parseMember_kv (k + 2) "id" c.id
        (',' :: ('"' :: ("v".data.flatMap escapeChar ++
          ('"' :: ':' :: (quoteString v ++ ['\x7d'])))))]
    simp only [Option.some_bind]
    rw [show (k + 2) + 2 = (k + 3) + 1 from rfl, parseObjTail_comma]
    rw [show k + 3 = (k + 1) + 2 from rfl,
      parseMember_kv (k + 1) "v" v ['\x7d']]
    simp only [Option.some_bind]
    rw [show (k + 1) + 2 = (k + 2) + 1 from rfl, parseObjTail_close]
    simp only [Option.map_some']
    simp [cursorJson, hv]

theorem jsonParse_cursor (c : DecodedCursor) :
    jsonParse (String.mk (stringifyCursor c)) = some (cursorJson c) := by
  have h2 : 2 ≤ (stringifyCursor c).length := by
    rcases hv : c.v with _ | v
    · rw [stringifyCursor_eq_none c hv]
      simp only [List.length_cons, List.length_append]
      omega
    · rw [stringifyCursor_eq_some c v hv]
      simp only [List.length_cons, List.length_append]
      omega
  simp only [jsonParse]
  obtain ⟨k, hk⟩ : ∃ k, 2 * (stringifyCursor c).length + 2 = k + 6 :=
    ⟨2 * (stringifyCursor c).length - 4, by omega⟩
  rw [hk, parseVal_cursor c k]
  simp +decide [skipWs]

theorem validateCursor_cursor (c : DecodedCursor)
    (h : mongoIdCheck c.id = true) :
    validateCursor (cursorJson c) = some c := by
  obtain ⟨cid, cv⟩ := c
  rcases cv with _ | v
  · simp +decide [cursorJson, validateCursor, List.lookup, h]
  · simp +decide [cursorJson, validateCursor, List.lookup, h, coerceString_str]

/-- Claim C7: for every cursor whose id is in the accepted key format (the
module's own MongoId validator) and whose v is any optional string, decoding
the encoded token yields the cursor again. -/
theorem c7_round_trip (c : DecodedCursor) (h : mongoIdCheck c.id = true) :
    decodeCursor (encodeCursor c) = DecodeResult.ok c := by
  have hbytes : ∀ b ∈ utf8Encode (stringifyCursor c), b < 256 := by
    intro b hb
    rw [utf8Encode] at hb
    obtain ⟨ch, _, hb2⟩ := List.mem_flatMap.mp hb
    exact utf8EncodeChar_lt_256 ch b hb2
  simp only [decodeCursor, encodeCursor,
    b64Valid_encode (utf8Encode (stringifyCursor c)) hbytes,
    b64Decode_encode (utf8Encode (stringifyCursor c)) hbytes,
    utf8Decode_encode, jsonParse_cursor, validateCursor_cursor c h,
    ite_true, if_true]

/-- Witness: a concrete hex id with a sort value survives the round trip. -/
theorem c7_round_trip_witness :
    mongoIdCheck "0123456789abcdef01234567" = true ∧
    decodeCursor (encodeCursor ⟨"0123456789abcdef01234567", some "42"⟩) =
      DecodeResult.ok ⟨"0123456789abcdef01234567", some "42"⟩ :=
  ⟨by decide,
   c7_round_trip ⟨"0123456789abcdef01234567", some "42"⟩ (by decide)⟩

/-- Claim C8 (code bug): decoding is claimed never to raise, but the base64
token aGVsbG8= (the word hello) passes the zod base64 regex, decodes to the
non-JSON text hello, and the JSON.parse SyntaxError thrown inside the
transform escapes safeParse, which only catches ZodErrors. -/
theorem c8_transform_throws :
    decodeCursor "aGVsbG8=" = DecodeResult.thrown ∧
    b64Valid "aGVsbG8=".data = true ∧
    String.mk (utf8Decode [104, 101, 108, 108, 111]) = "hello" ∧
    (jsonParse "hello").isNone = true := by
  refine ⟨by decide, by decide, by decide, by decide⟩

end Codec
